import Mathlib

/-!
Verification development for the test-bed DSL engine: the runtime object
model and scoped variable resolution (`src/program.rs`), the bytecode
interpreter (`Program::run`), the loop compiler
(`src/parser/mod.rs`: `build_group_loop`, `build_combination_loop`),
the splat-argument iterator (`src/bed/commands.rs`: `ObjectIter`),
the process lifecycle state (`src/bed/process.rs`: `ProcessBar::set_state`)
and the spawn admission control (`src/bed/mod.rs`: `TestBed::execute`,
`TestBed::wait_all`).

Rust machine types are embedded as follows: `usize` as `Nat`, `i64` as
`Int` (the claims under study never exercise integer overflow), `String`
as `String`, `HashMap<VarNameId, Object>` as an association list with
replace-on-insert, `Vec<T>` as `List T`.  Loops that the source bounds
only by runtime conditions (the `Ref`-chasing loop in `evaluate_ref`,
the interpreter loop in `Program::run`, the polling loop in `wait_all`)
take an explicit fuel argument; exhausting fuel models the execution
still running.  A Rust `panic!`/`unwrap` failure is a distinguished
result constructor, never a defaulted value.
-/

/-- Interned variable-name identifier (`VarNameId(pub usize)`). -/
abbrev VarNameId := Nat

/-- Rust `VariableRef { scope, target, offset }`: a weak alias into another
scope's variable, optionally selecting one list element. -/
structure VariableRef where
  scope : Nat
  target : VarNameId
  offset : Nat
  deriving Repr, DecidableEq

/-- Runtime value (`enum Object` in `src/program.rs`).  `strct` is
`Object::Struct { base, properties }` with the property `HashMap`
embedded as an association list. -/
inductive Object where
  | counter (offset : Nat) (start stop : Int)
  | ref (r : VariableRef)
  | strct (base : String) (properties : List (VarNameId × Object))
  | list (elems : List Object)

/-- Rust `Counter::idx`: `start + offset as i64`. -/
def counterIdx (offset : Nat) (start : Int) : Int := start + (offset : Int)

/-- Rust `Counter::len`: `end - start` clamped at zero, as `usize`. -/
def counterLen (start stop : Int) : Nat := (stop - start).toNat

/-- One scope frame: `Scope(HashMap<VarNameId, Object>)` as an
association list. -/
abbrev Scope := List (VarNameId × Object)

/-- Association-list lookup, mirroring `HashMap::get`. -/
def alookup (s : Scope) (k : VarNameId) : Option Object :=
  match s with
  | [] => none
  | (k2, v) :: rest => if k2 = k then some v else alookup rest k

/-- Association-list insert, mirroring `HashMap::insert`: replaces the
binding of an existing key, otherwise adds one. -/
def ainsert (s : Scope) (k : VarNameId) (v : Object) : Scope :=
  match s with
  | [] => [(k, v)]
  | (k2, v2) :: rest =>
      if k2 = k then (k2, v) :: rest else (k2, v2) :: ainsert rest k v

/-- Program variable state: the ordered scope stack (`ProgramState`).
Index 0 is the outermost scope, the last element the innermost, exactly
as in the Rust `Vec<Scope>`.  The Rust `scope_cache` recycles cleared
maps and is semantically invisible, so it is not represented. -/
structure ProgramState where
  scopes : List Scope

/-- Rust `ProgramState::new_scope`: push a fresh (empty) innermost scope. -/
def ProgramState.newScope (st : ProgramState) : ProgramState :=
  ⟨st.scopes ++ [[]]⟩

/-- Rust `ProgramState::pop_scope`: drop the innermost scope (no-op when the
stack is empty). -/
def ProgramState.popScope (st : ProgramState) : ProgramState :=
  ⟨st.scopes.dropLast⟩

/-- Innermost-first search over a scope list, returning the absolute
index (from the front, 0 = outermost) of the owning scope together with
the value, as `ProgramState::get_value` does with
`iter().enumerate().rev()`. -/
def getValueScopes (scopes : List Scope) (v : VarNameId) :
    Option (Nat × Object) :=
  match scopes with
  | [] => none
  | s :: rest =>
      match getValueScopes rest v with
      | some (i, o) => some (i + 1, o)
      | none =>
          match alookup s v with
          | some o => some (0, o)
          | none => none

/-- Rust `ProgramState::get_value`. -/
def ProgramState.getValue (st : ProgramState) (v : VarNameId) :
    Option (Nat × Object) :=
  getValueScopes st.scopes v

/-- Innermost-first in-place update, mirroring
`ProgramState::get_value_mut` followed by an assignment to the returned
mutable reference.  Returns `none` when no scope binds the variable. -/
def setValueScopes (scopes : List Scope) (v : VarNameId) (o : Object) :
    Option (List Scope) :=
  match scopes with
  | [] => none
  | s :: rest =>
      match setValueScopes rest v o with
      | some rest2 => some (s :: rest2)
      | none =>
          match alookup s v with
          | some _ => some (ainsert s v o :: rest)
          | none => none

/-- Innermost-first overwrite of an existing binding
(`get_value_mut` + assignment). -/
def ProgramState.setValue (st : ProgramState) (v : VarNameId)
    (o : Object) : Option ProgramState :=
  (setValueScopes st.scopes v o).map (fun s => ⟨s⟩)

/-- Rust `ProgramState::insert_var`: ensure the scope stack is non-empty,
default the scope index to the innermost, grow the stack with empty
scopes until the index exists, then insert. -/
def ProgramState.insertVar (st : ProgramState) (id : VarNameId)
    (o : Object) (scope : Option Nat) : ProgramState :=
  let scopes := if st.scopes.isEmpty then [[]] else st.scopes
  let idx := scope.getD (scopes.length - 1)
  let scopes := scopes ++ List.replicate (idx + 1 - scopes.length) []
  ⟨scopes.set idx (ainsert (scopes.getD idx []) id o)⟩

/-- One dereference step of `ProgramState::evaluate_ref`: index the
scope stack, look the target up, then select the list element at
`offset` when the value is a list.  The Rust code indexes
`self.scopes[value.scope]` directly (out of range would panic); the
claims proved below only apply this to in-range references, so the
out-of-range case is folded into `none` here. -/
def refStep (st : ProgramState) (r : VariableRef) : Option Object :=
  match st.scopes.get? r.scope with
  | none => none
  | some sc =>
      match alookup sc r.target with
      | none => none
      | some (Object.list es) => es.get? r.offset
      | some o => some o

/-- Rust `ProgramState::evaluate_ref`: dereference, then keep chasing while
the result is again a `Ref`.  The Rust `while` loop is unbounded (it
diverges on cyclic references); `fuel` bounds the number of dereference
steps, with `none` covering both a missing target and exhausted fuel. -/
def evaluateRef (st : ProgramState) : Nat → VariableRef → Option Object
  | 0, _ => none
  | fuel + 1, r =>
      match refStep st r with
      | none => none
      | some (Object.ref r2) => evaluateRef st fuel r2
      | some o => some o

/-- Rust `enum VariableAccessError` in `src/program.rs`. -/
inductive VariableAccessError where
  | notAStruct (o : Object)
  | notARef
  | notAList
  | invalidIdx
  | missingFile (path : String)
  | missingVariable (v : VarNameId)
  | missingField (v : VarNameId)

/-- Result of running embedded Rust code that can also `panic!` or
loop: `ok`/`err` mirror `Result`, `panicked` marks an `unwrap`/`panic!`
failure, `fuelOut` marks exhausted fuel (the source construct is still
running). -/
inductive ERes (α : Type) where
  | ok (a : α)
  | err (e : VariableAccessError)
  | panicked
  | fuelOut

/-- Rust `enum ListIdx` (integer position or name-style key). -/
inductive ListIdx where
  | int (i : Nat)
  | str (s : String)
  deriving Repr, DecidableEq

/-- Rust `ListIdx::get_object`: positional indexing, or linear search for
the first `Struct` element whose `base` equals the key; any failure is
`InvalidIdx`. -/
def ListIdx.getObject (idx : ListIdx) (l : List Object) :
    ERes Object :=
  match idx with
  | .int i =>
      match l.get? i with
      | some o => .ok o
      | none => .err .invalidIdx
  | .str s =>
      match l.findSome? (fun o =>
          match o with
          | Object.strct b _ => if b = s then some o else none
          | _ => none) with
      | some o => .ok o
      | none => .err .invalidIdx

/-- Digit fold used by the `str::parse` embeddings. -/
def digitsToNat (l : List Char) : Option Nat :=
  l.foldl (fun acc c =>
    match acc with
    | none => none
    | some n => if c.isDigit then some (n * 10 + (c.toNat - 48)) else none)
    (some 0)

/-- Rust `str::parse::<usize>()`: optional leading `+`, then one or more
digits (overflow is not modelled; `usize` is embedded as `Nat`). -/
def parseUsize (s : String) : Option Nat :=
  match s.data with
  | [] => none
  | '+' :: rest => if rest.isEmpty then none else digitsToNat rest
  | l => digitsToNat l

/-- Rust `str::parse::<i64>()`: optional leading `+` or `-`, then digits. -/
def parseI64 (s : String) : Option Int :=
  match s.data with
  | [] => none
  | '-' :: rest =>
      if rest.isEmpty then none else (digitsToNat rest).map (fun n => -(n : Int))
  | '+' :: rest =>
      if rest.isEmpty then none else (digitsToNat rest).map (fun n => (n : Int))
  | l => (digitsToNat l).map (fun n => (n : Int))

/-- Rust `ProgramState::object_to_idx` restricted to non-`Ref` objects: a
`Counter` yields its (non-negative) index, a `Struct` yields an integer
position when `base` parses as `usize` and otherwise a name-style key,
a `List` yields nothing.  (`evaluate_ref` never returns a `Ref`, so the
`Ref` case here is unreachable in the recursive call below.) -/
def objectToIdxBase (o : Object) : Option ListIdx :=
  match o with
  | Object.counter off start _ =>
      let idx := counterIdx off start
      if idx < 0 then none else some (.int idx.toNat)
  | Object.strct base _ =>
      match parseUsize base with
      | some i => some (.int i)
      | none => some (.str base)
  | _ => none

/-- Rust `ProgramState::object_to_idx`: a `Ref` is first fully dereferenced
(failed dereference yields `none`), then treated by shape. -/
def objectToIdx (st : ProgramState) (fuel : Nat) (o : Object) :
    Option ListIdx :=
  match o with
  | Object.ref r =>
      match evaluateRef st fuel r with
      | none => none
      | some o2 => objectToIdxBase o2
  | o => objectToIdxBase o

-- Compiled path expressions (`VariableIdx` / `VarFieldId`): a
-- variable, an optional list index (literal or another path), and an
-- optional nested field chain.
mutual
/-- Rust `enum VariableIdx`: a literal list index or a nested path that
evaluates to one. -/
inductive VariableIdx where
  | int (i : Nat)
  | var (id : VarFieldId)
/-- Rust `struct VarFieldId { var, idx, field }`. -/
inductive VarFieldId where
  | mk (var : VarNameId) (idx : Option VariableIdx) (field : Option VarFieldId)
end

/-- The `var` component of a `VarFieldId`. -/
def VarFieldId.var : VarFieldId → VarNameId
  | .mk v _ _ => v

/-- The optional `idx` component of a `VarFieldId`. -/
def VarFieldId.idx : VarFieldId → Option VariableIdx
  | .mk _ i _ => i

/-- The optional `field` component of a `VarFieldId`. -/
def VarFieldId.field : VarFieldId → Option VarFieldId
  | .mk _ _ f => f

/-- Rust `VarFieldId::new`: a bare variable path. -/
def VarFieldId.new (v : VarNameId) : VarFieldId := .mk v none none

/-- The three mutually recursive path-resolution functions of
`src/program.rs`, packaged as one fuel-indexed evaluator:
`objectQ id` is `ProgramState::get_object(id)`, `valueQ id o` is
`VarFieldId::get_value(id, program, o)` (field projection inside `o`),
and `idxQ ix` is `ProgramState::evaluate_idx(ix)`. -/
inductive PathQuery where
  | objectQ (id : VarFieldId)
  | valueQ (id : VarFieldId) (o : Object)
  | idxQ (ix : VariableIdx)

/-- Result of a `PathQuery`: `objectQ`/`valueQ` produce objects,
`idxQ` produces a `ListIdx`. -/
inductive PathOut where
  | obj (o : Object)
  | lidx (i : ListIdx)

/-- The combined path evaluator.  In Rust the three functions recurse
into each other structurally on the path expression; here the recursion
is bounded by `fuel` so that every equation reduces computationally
(`fuelOut` never occurs once `fuel` exceeds the path depth).  The
`.ok (.lidx _)`/`.ok (.obj _)` cross cases are unreachable artifacts of
packaging the three result types into one sum and are mapped to
`panicked`. -/
def evalPath (st : ProgramState) : Nat → PathQuery → ERes PathOut
  | 0, _ => .fuelOut
  | fuel + 1, .objectQ id =>
      match st.getValue id.var with
      | none => .err (.missingVariable id.var)
      | some (_, o0) =>
          let afterIdx : ERes Object :=
            match id.idx with
            | none => .ok o0
            | some ix =>
                match o0 with
                | Object.list es =>
                    match evalPath st fuel (.idxQ ix) with
                    | .ok (.lidx li) => li.getObject es
                    | .ok (.obj _) => .panicked
                    | .err e => .err e
                    | .panicked => .panicked
                    | .fuelOut => .fuelOut
                | _ => .err .notAList
          match afterIdx with
          | .ok o1 =>
              match id.field with
              | none => .ok (.obj o1)
              | some f => evalPath st fuel (.valueQ f o1)
          | .err e => .err e
          | .panicked => .panicked
          | .fuelOut => .fuelOut
  | fuel + 1, .valueQ id obj =>
      let props? : ERes (List (VarNameId × Object)) :=
        match obj with
        | Object.strct _ props => .ok props
        | Object.ref r =>
            match evaluateRef st fuel r with
            | none => .panicked
            | some (Object.strct _ props) => .ok props
            | some x => .err (.notAStruct x)
        | x => .err (.notAStruct x)
      match props? with
      | .ok props =>
          match alookup props id.var with
          | none => .err (.missingField id.var)
          | some o0 =>
              let afterIdx : ERes Object :=
                match id.idx with
                | none => .ok o0
                | some ix =>
                    match o0 with
                    | Object.list es =>
                        match evalPath st fuel (.idxQ ix) with
                        | .ok (.lidx li) => li.getObject es
                        | .ok (.obj _) => .panicked
                        | .err e => .err e
                        | .panicked => .panicked
                        | .fuelOut => .fuelOut
                    | _ => .err .notAList
              match afterIdx with
              | .ok o1 =>
                  match id.field with
                  | none => .ok (.obj o1)
                  | some f => evalPath st fuel (.valueQ f o1)
              | .err e => .err e
              | .panicked => .panicked
              | .fuelOut => .fuelOut
      | .err e => .err e
      | .panicked => .panicked
      | .fuelOut => .fuelOut
  | fuel + 1, .idxQ ix =>
      match ix with
      | .int i => .ok (.lidx (.int i))
      | .var id =>
          match evalPath st fuel (.objectQ id) with
          | .ok (.obj o) =>
              match objectToIdx st fuel o with
              | some li => .ok (.lidx li)
              | none => .err .invalidIdx
          | .ok (.lidx _) => .panicked
          | .err e => .err e
          | .panicked => .panicked
          | .fuelOut => .fuelOut

/-- Rust `ProgramState::get_object`, extracted from the combined path
evaluator. -/
def ProgramState.getObjectP (st : ProgramState) (fuel : Nat)
    (id : VarFieldId) : ERes Object :=
  match evalPath st fuel (.objectQ id) with
  | .ok (.obj o) => .ok o
  | .ok (.lidx _) => .panicked
  | .err e => .err e
  | .panicked => .panicked
  | .fuelOut => .fuelOut

/-- Rust `Object::write_to_string`: a `Struct` contributes its `base`, a
`Counter` its current index, a `Ref` is dereferenced first (the Rust
code calls `.unwrap()`, so a failed dereference is a panic), and a
`List` is a `NotAStruct` error carrying the offending object. -/
def writeToString (st : ProgramState) (fuel : Nat) (o : Object) :
    ERes String :=
  match o with
  | Object.strct b _ => .ok b
  | Object.counter off start _ => .ok (toString (counterIdx off start))
  | Object.list es => .err (.notAStruct (Object.list es))
  | Object.ref r =>
      match evaluateRef st fuel r with
      | none => .panicked
      | some (Object.strct b _) => .ok b
      | some (Object.counter off start _) => .ok (toString (counterIdx off start))
      | some (Object.list es) => .err (.notAStruct (Object.list es))
      | some (Object.ref _) => .panicked

/-- Rust `enum StringInstance`: a literal fragment or an interpolated
variable path. -/
inductive StringInstance where
  | lit (s : String)
  | var (v : VarFieldId)

/-- Rust `StringExpr(Vec<StringInstance>)`. -/
abbrev StringExpr := List StringInstance

/-- Rust `StringExpr::evaluate`: concatenate the fragments in order; a
variable fragment is resolved with `get_object` and rendered with
`write_to_string`, and the first failure aborts. -/
def evalStringExpr (st : ProgramState) (fuel : Nat) :
    StringExpr → ERes String
  | [] => .ok ""
  | StringInstance.lit s :: rest =>
      match evalStringExpr st fuel rest with
      | .ok out => .ok (s ++ out)
      | .err e => .err e
      | .panicked => .panicked
      | .fuelOut => .fuelOut
  | StringInstance.var v :: rest =>
      match ProgramState.getObjectP st fuel v with
      | .ok o =>
          match writeToString st fuel o with
          | .ok s =>
              match evalStringExpr st fuel rest with
              | .ok out => .ok (s ++ out)
              | .err e => .err e
              | .panicked => .panicked
              | .fuelOut => .fuelOut
          | .err e => .err e
          | .panicked => .panicked
          | .fuelOut => .fuelOut
      | .err e => .err e
      | .panicked => .panicked
      | .fuelOut => .fuelOut

/-- Rust `enum RangeExpr`: a literal `i64` or a string expression parsed as
one. -/
inductive RangeExpr where
  | int (i : Int)
  | var (e : StringExpr)

/-- Rust `RangeExpr::evaluate`: evaluate the string expression and parse it
as `i64`, with a parse failure reported as `InvalidIdx`. -/
def RangeExpr.evaluate (st : ProgramState) (fuel : Nat) :
    RangeExpr → ERes Int
  | .int i => .ok i
  | .var e =>
      match evalStringExpr st fuel e with
      | .ok s =>
          match parseI64 s with
          | some i => .ok i
          | none => .err .invalidIdx
      | .err e => .err e
      | .panicked => .panicked
      | .fuelOut => .fuelOut

/-- Rust `enum ObjectExpr`: clone of a path, list literal, counter from a
range, or struct literal (`StructExpr { base, properties }` is inlined
as the `strctE` constructor). -/
inductive ObjectExpr where
  | clone (v : VarFieldId)
  | list (es : List ObjectExpr)
  | counter (min max : RangeExpr)
  | strctE (base : StringExpr) (properties : List (VarNameId × ObjectExpr))

/-- Rust `ObjectExpr::evaluate`.  List elements and struct properties are
evaluated in order with the first failure aborting; for a struct
literal the properties are evaluated before the base, as in the Rust
code (`Struct::new(value.base.evaluate(state)?, properties)` runs the
property loop first).  The recursion walks lists by peeling one element
and re-entering the same constructor, so it is structural on `fuel`;
the impossible cross-constructor results are mapped to `panicked`. -/
def ObjectExpr.evaluate (st : ProgramState) : Nat → ObjectExpr → ERes Object
  | 0, _ => .fuelOut
  | fuel + 1, .clone v => ProgramState.getObjectP st fuel v
  | _ + 1, .list [] => .ok (.list [])
  | fuel + 1, .list (e :: rest) =>
      match ObjectExpr.evaluate st fuel e with
      | .ok o =>
          match ObjectExpr.evaluate st fuel (.list rest) with
          | .ok (Object.list os) => .ok (.list (o :: os))
          | .ok _ => .panicked
          | .err e2 => .err e2
          | .panicked => .panicked
          | .fuelOut => .fuelOut
      | .err e2 => .err e2
      | .panicked => .panicked
      | .fuelOut => .fuelOut
  | fuel + 1, .counter mn mx =>
      match RangeExpr.evaluate st fuel mn with
      | .ok mnv =>
          match RangeExpr.evaluate st fuel mx with
          | .ok mxv => .ok (.counter 0 mnv mxv)
          | .err e2 => .err e2
          | .panicked => .panicked
          | .fuelOut => .fuelOut
      | .err e2 => .err e2
      | .panicked => .panicked
      | .fuelOut => .fuelOut
  | fuel + 1, .strctE base [] =>
      match evalStringExpr st fuel base with
      | .ok b => .ok (.strct b [])
      | .err e2 => .err e2
      | .panicked => .panicked
      | .fuelOut => .fuelOut
  | fuel + 1, .strctE base ((k, pe) :: rest) =>
      match ObjectExpr.evaluate st fuel pe with
      | .ok o =>
          match ObjectExpr.evaluate st fuel (.strctE base rest) with
          | .ok (Object.strct b ps) => .ok (.strct b ((k, o) :: ps))
          | .ok _ => .panicked
          | .err e2 => .err e2
          | .panicked => .panicked
          | .fuelOut => .fuelOut
      | .err e2 => .err e2
      | .panicked => .panicked
      | .fuelOut => .fuelOut

/-- Rust `enum IterTargetExpr`: iterate a named variable or an evaluated
range. -/
inductive IterTargetExpr where
  | varT (v : VarNameId)
  | rangeT (start stop : RangeExpr)

/-- Rust `enum IterTarget` (the `Increment` side of `IterTargetExpr`). -/
inductive IterTarget where
  | varT (v : VarNameId)
  | rangeT

/-- Rust `IterTargetExpr::to_itertarget`. -/
def IterTargetExpr.toItertarget : IterTargetExpr → IterTarget
  | .varT v => .varT v
  | .rangeT _ _ => .rangeT

/-- Rust `enum Instruction<T>` in `src/program.rs`, with jump targets as
plain `Nat` (the Rust `InstructionId(usize)`). -/
inductive Instruction (T : Type) where
  | pushScope
  | popScope
  | print (v : VarFieldId)
  | pushList (target : VarNameId) (object : ObjectExpr)
  | createVar (target : VarNameId) (scope : Option Nat) (value : ObjectExpr)
  | assignVar (target : VarNameId) (scope : Option Nat) (value : ObjectExpr)
  | loadVar (target : VarNameId) (path : StringExpr)
  | startIter (target : IterTargetExpr) (iter : VarNameId) (jump : Nat)
  | increment (target : IterTarget) (iter : VarNameId) (jump : Nat)
  | conditionalJump (cond : VarFieldId) (jump : Nat)
  | goto (target : Nat)
  | command (cmd : T)

/-- The `Executable<Command>` trait: executor callbacks invoked by the
interpreter.  An executor value of type `E` is threaded explicitly in
place of `&mut self`; `executeFn` also returns the possibly mutated
state plus an optional error (Rust mutates in place and returns
`Result<(), VariableAccessError>`).  `loadFileFn` is the file-system
oracle consumed by `LoadVar` (`std::fs::File::open` + `ron` parsing);
`none` models an unopenable file. -/
structure ExecIface (C : Type) (E : Type) where
  shutdownFn : E → E
  finishFn : E → ProgramState → Bool → E × ProgramState
  executeFn : E → C → ProgramState → Bool → E × ProgramState × Option VariableAccessError
  setIterFn : E → VarNameId → Nat → Object → E
  printFn : E → ProgramState → Object → E
  loadFileFn : String → Option Object

/-- The length a `StartIter`/`Increment` target exposes: a list's
element count or a counter's `len()`; other shapes have none
(`NotAList`). -/
def iterLen (o : Object) : Option Nat :=
  match o with
  | Object.list es => some es.length
  | Object.counter _ start stop => some (counterLen start stop)
  | _ => none

/-- The `ConditionalJump` condition evaluation in `Program::run`:
resolve `cond` with `get_object`, then require a `Struct`, following
one `Ref` through `evaluate_ref` (whose result the Rust code
`.unwrap()`s).  Returns the struct's base and properties. -/
def evalCondJump (st : ProgramState) (fuel : Nat) (cond : VarFieldId) :
    ERes (String × List (VarNameId × Object)) :=
  match ProgramState.getObjectP st fuel cond with
  | .ok (Object.strct b ps) => .ok (b, ps)
  | .ok (Object.ref r) =>
      match evaluateRef st fuel r with
      | none => .panicked
      | some (Object.strct b ps) => .ok (b, ps)
      | some x => .err (.notAStruct x)
  | .ok x => .err (.notAStruct x)
  | .err e => .err e
  | .panicked => .panicked
  | .fuelOut => .fuelOut

/-- Result of executing one instruction: continue at `pc`, abort the
run with an error (the Rust `return Err((counter, e))`), or panic. -/
inductive StepRes (E : Type) where
  | next (pc : Nat) (e : E) (st : ProgramState)
  | failedI (err : VariableAccessError) (e : E) (st : ProgramState)
  | panicI

/-- One instruction of the `Program::run` interpreter loop, given the
current program counter `pc`.  `pfuel` bounds path/ref resolution and
expression recursion; exhausted resolution fuel surfaces as `panicI`
(it never occurs in the runs studied below). -/
def step {C E : Type} (iface : ExecIface C E) (flag : Bool) (pfuel : Nat)
    (instr : Instruction C) (pc : Nat) (e : E) (st : ProgramState) :
    StepRes E :=
  match instr with
  | .pushScope => .next (pc + 1) e st.newScope
  | .popScope => .next (pc + 1) e st.popScope
  | .print v =>
      match st.getObjectP pfuel v with
      | .ok o => .next (pc + 1) (iface.printFn e st o) st
      | .err e2 => .failedI e2 e st
      | .panicked => .panicI
      | .fuelOut => .panicI
  | .pushList target object =>
      match ObjectExpr.evaluate st pfuel object with
      | .ok o =>
          match st.getValue target with
          | some (_, Object.list es) =>
              match st.setValue target (Object.list (es ++ [o])) with
              | some st2 => .next (pc + 1) e st2
              | none => .panicI
          | some (_, _) => .failedI .notAList e st
          | none => .failedI (.missingVariable target) e st
      | .err e2 => .failedI e2 e st
      | .panicked => .panicI
      | .fuelOut => .panicI
  | .createVar target scope value =>
      match ObjectExpr.evaluate st pfuel value with
      | .ok o =>
          match scope with
          | some sIdx =>
              match st.scopes.get? sIdx with
              | some sc => .next (pc + 1) e ⟨st.scopes.set sIdx (ainsert sc target o)⟩
              | none => .next (pc + 1) e st
          | none => .next (pc + 1) e (st.insertVar target o none)
      | .err e2 => .failedI e2 e st
      | .panicked => .panicI
      | .fuelOut => .panicI
  | .assignVar target scope value =>
      match ObjectExpr.evaluate st pfuel value with
      | .ok o =>
          match scope with
          | some sIdx =>
              match st.scopes.get? sIdx with
              | some sc =>
                  match alookup sc target with
                  | some _ => .next (pc + 1) e ⟨st.scopes.set sIdx (ainsert sc target o)⟩
                  | none => .next (pc + 1) e st
              | none => .next (pc + 1) e st
          | none =>
              match st.setValue target o with
              | some st2 => .next (pc + 1) e st2
              | none => .next (pc + 1) e st
      | .err e2 => .failedI e2 e st
      | .panicked => .panicI
      | .fuelOut => .panicI
  | .loadVar target path =>
      match evalStringExpr st pfuel path with
      | .ok p =>
          match iface.loadFileFn p with
          | none => .failedI (.missingFile p) e st
          | some o => .next (pc + 1) e (st.insertVar target o none)
      | .err e2 => .failedI e2 e st
      | .panicked => .panicI
      | .fuelOut => .panicI
  | .startIter (IterTargetExpr.varT target) iter jump =>
      match st.getValue target with
      | none => .failedI (.missingVariable target) e st
      | some (scope, o) =>
          match iterLen o with
          | none => .failedI .notAList e st
          | some len =>
              if len > 0 then
                .next (pc + 1) (iface.setIterFn e iter 0 o)
                  (st.insertVar iter (Object.ref ⟨scope, target, 0⟩) none)
              else .next jump e st
  | .startIter (IterTargetExpr.rangeT startE stopE) iter jump =>
      match RangeExpr.evaluate st pfuel startE with
      | .ok startV =>
          match RangeExpr.evaluate st pfuel stopE with
          | .ok stopV =>
              if startV ≥ stopV then .next jump e st
              else
                .next (pc + 1)
                  (iface.setIterFn e iter 0 (Object.counter 0 startV stopV))
                  (st.insertVar iter (Object.counter 0 startV stopV) none)
          | .err e2 => .failedI e2 e st
          | .panicked => .panicI
          | .fuelOut => .panicI
      | .err e2 => .failedI e2 e st
      | .panicked => .panicI
      | .fuelOut => .panicI
  | .increment (IterTarget.varT target) iter jump =>
      match st.getValue target with
      | none => .failedI (.missingVariable target) e st
      | some (_, o) =>
          match iterLen o with
          | none => .failedI .notAList e st
          | some len =>
              match st.getValue iter with
              | none => .failedI (.missingVariable iter) e st
              | some (_, Object.ref r) =>
                  match st.setValue iter
                      (Object.ref ⟨r.scope, r.target, r.offset + 1⟩) with
                  | none => .panicI
                  | some st2 =>
                      match st2.getValue target with
                      | none => .panicI
                      | some (_, varObj) =>
                          let e2 := iface.setIterFn e iter (r.offset + 1) varObj
                          if r.offset + 1 ≥ len then .next jump e2 st2
                          else .next (pc + 1) e2 st2
              | some (_, _) => .failedI .notARef e st
  | .increment IterTarget.rangeT iter jump =>
      match st.getValue iter with
      | none => .failedI (.missingVariable iter) e st
      | some (_, Object.counter off start stop) =>
          match st.setValue iter (Object.counter (off + 1) start stop) with
          | none => .panicI
          | some st2 =>
              let e2 := iface.setIterFn e iter (off + 1)
                (Object.counter (off + 1) start stop)
              if start + ((off + 1 : Nat) : Int) ≥ stop then .next jump e2 st2
              else .next (pc + 1) e2 st2
      | some (_, _) => .failedI .notARef e st
  | .conditionalJump cond jump =>
      match evalCondJump st pfuel cond with
      | .ok (b, _) =>
          if b = "false" then .next (pc + 1) e st else .next jump e st
      | .err e2 => .failedI e2 e st
      | .panicked => .panicI
      | .fuelOut => .panicI
  | .goto target => .next target e st
  | .command cmd =>
      match iface.executeFn e cmd st flag with
      | (e2, st2, some er) => .failedI er e2 st2
      | (e2, st2, none) => .next (pc + 1) e2 st2

/-- Observable interpreter events: `exec i` records that the
instruction at index `i` started executing, `finished` that the
`finish` hook ran, `shutdownHook` that the `shutdown` hook ran. -/
inductive Event where
  | exec (i : Nat)
  | finished
  | shutdownHook
  deriving Repr, DecidableEq

/-- Final outcome of `Program::run`: normal completion (`finish` ran),
early return after the cancellation check (`shutdown` ran), an aborted
run carrying the failing instruction index and error (the Rust
`Err((counter, e))`), a panic, or exhausted interpreter fuel. -/
inductive RunOutcome (E : Type) where
  | finishedOk (e : E) (st : ProgramState)
  | shutdownEarly (e : E) (st : ProgramState)
  | failed (idx : Nat) (err : VariableAccessError) (e : E) (st : ProgramState)
  | panicked
  | outOfFuel (pc : Nat) (e : E) (st : ProgramState)

/-- The `Program::run` interpreter loop: while the counter is inside
the program, check the cancellation flag (running `shutdown` and
returning if set), execute the instruction, and continue; once the
counter leaves the program, run `finish`.  `fuel` bounds the number of
loop iterations; the event list records execution order. -/
def runAux {C E : Type} (iface : ExecIface C E) (flag : Bool)
    (pfuel : Nat) (prog : List (Instruction C)) :
    Nat → Nat → E → ProgramState → List Event → RunOutcome E × List Event
  | 0, pc, e, st, evs => (.outOfFuel pc e st, evs)
  | fuel + 1, pc, e, st, evs =>
      match prog.get? pc with
      | none =>
          match iface.finishFn e st flag with
          | (e2, st2) => (.finishedOk e2 st2, evs ++ [Event.finished])
      | some instr =>
          if flag then
            (.shutdownEarly (iface.shutdownFn e) st, evs ++ [Event.shutdownHook])
          else
            match step iface flag pfuel instr pc e st with
            | .next pc2 e2 st2 =>
                runAux iface flag pfuel prog fuel pc2 e2 st2 (evs ++ [Event.exec pc])
            | .failedI er e2 st2 => (.failed pc er e2 st2, evs ++ [Event.exec pc])
            | .panicI => (.panicked, evs ++ [Event.exec pc])

/-- Rust `Program::run` from instruction 0 with an empty event log. -/
def runProgram {C E : Type} (iface : ExecIface C E) (flag : Bool)
    (pfuel : Nat) (prog : List (Instruction C)) (fuel : Nat) (e : E)
    (st : ProgramState) : RunOutcome E × List Event :=
  runAux iface flag pfuel prog fuel 0 e st []

/-- Patch the `StartIter` jump targets in index range `[lo, hi)`, as the
back-patching loops at the end of `build_group_loop` do. -/
def patchStartIterJumps {T : Type} (l : List (Instruction T))
    (lo hi target : Nat) : List (Instruction T) :=
  l.mapIdx (fun k ins =>
    if lo ≤ k ∧ k < hi then
      match ins with
      | .startIter t it _ => .startIter t it target
      | x => x
    else ins)

/-- Patch the `Increment` jump targets in index range `[lo, hi)`. -/
def patchIncrementJumps {T : Type} (l : List (Instruction T))
    (lo hi target : Nat) : List (Instruction T) :=
  l.mapIdx (fun k ins =>
    if lo ≤ k ∧ k < hi then
      match ins with
      | .increment t it _ => .increment t it target
      | x => x
    else ins)

/-- Rust `build_group_loop` (`src/parser/mod.rs`): one `StartIter` per
iterator/target pair, the body (wrapped in its own scope), one
`Increment` per pair, a `Goto` back to the body, and a final
`PopScope`; every `StartIter`/`Increment` jump is back-patched to the
loop-end index. -/
def buildGroupLoop {T : Type} (iters : List VarNameId)
    (targets : List IterTargetExpr) (instructions : List (Instruction T))
    (f : List (Instruction T) → List (Instruction T)) :
    List (Instruction T) :=
  let ins1 := instructions ++ [.pushScope]
  let iterStart := ins1.length
  let ins2 := ins1 ++ (iters.zip targets).map
    (fun p => Instruction.startIter p.2 p.1 0)
  let gotoIdx := ins2.length
  let ins3 := ins2 ++ [.pushScope]
  let ins4 := f ins3
  let ins5 := ins4 ++ [.popScope]
  let incrementStart := ins5.length
  let ins6 := ins5 ++ (iters.zip targets).map
    (fun p => Instruction.increment p.2.toItertarget p.1 0)
  let ins7 := ins6 ++ [.goto gotoIdx]
  let endIdx := ins7.length
  let ins8 := ins7 ++ [.popScope]
  let ins9 := patchStartIterJumps ins8 iterStart gotoIdx endIdx
  patchIncrementJumps ins9 incrementStart endIdx endIdx

/-- Rust `build_combination_loop`: recursively nest one iterator inside the
next, the first listed iterator outermost; the base case wraps the body
in its own scope.  The Rust code indexes `targets[0]`, so the
mismatched-length case (which would panic there) is left as the
unchanged instruction list here; all uses have equal lengths, as the
parser enforces. -/
def buildCombinationLoop {T : Type} :
    List VarNameId → List IterTargetExpr → List (Instruction T) →
    (List (Instruction T) → List (Instruction T)) → List (Instruction T)
  | [], _, instructions, f =>
      let i1 := instructions ++ [.pushScope]
      let i2 := f i1
      i2 ++ [.popScope]
  | _ :: _, [], instructions, _ => instructions
  | iter :: restIters, target :: restTargets, instructions, f =>
      let i1 := instructions ++ [.pushScope]
      let iterStart := i1.length
      let i2 := i1 ++ [Instruction.startIter target iter 0]
      let gotoIdx := i2.length
      let i3 := buildCombinationLoop restIters restTargets i2 f
      let incrementStart := i3.length
      let i4 := i3 ++ [Instruction.increment target.toItertarget iter 0]
      let i5 := i4 ++ [Instruction.goto gotoIdx]
      let endIdx := i5.length
      let i6 := i5 ++ [Instruction.popScope]
      let i7 := patchStartIterJumps i6 iterStart (iterStart + 1) endIdx
      patchIncrementJumps i7 incrementStart (incrementStart + 1) endIdx

/-- The current list offset of the loop variable `v` (loop variables
over list targets are bound to `Ref`s whose `offset` advances each
pass); 1000 is a sentinel for a missing or non-`Ref` binding. -/
def refOffset (st : ProgramState) (v : VarNameId) : Nat :=
  match st.getValue v with
  | some (_, Object.ref r) => r.offset
  | _ => 1000

/-- A logging executor over unit commands: each `Command` records the
offsets of the three loop variables 3, 4, 5. -/
def logIface : ExecIface Unit (List (Nat × Nat × Nat)) where
  shutdownFn := id
  finishFn := fun e st _ => (e, st)
  executeFn := fun e _ st _ =>
    (e ++ [(refOffset st 3, refOffset st 4, refOffset st 5)], st, none)
  setIterFn := fun e _ _ _ => e
  printFn := fun e _ _ => e
  loadFileFn := fun _ => none

/-- A list of `n` placeholder structs, used as a loop target. -/
def dummyList (n : Nat) : Object :=
  Object.list (List.replicate n (Object.strct "e" []))

/-- Initial state for the loop-compiler scenarios: one scope binding
variables 0, 1, 2 to lists of lengths 3, 5, 2. -/
def loopTestState : ProgramState :=
  ⟨[[(0, dummyList 3), (1, dummyList 5), (2, dummyList 2)]]⟩

/-- The compiled lock-step loop over the three targets, with a single
`Command` as body. -/
def groupProgram : List (Instruction Unit) :=
  buildGroupLoop [3, 4, 5] [.varT 0, .varT 1, .varT 2] []
    (fun ins => ins ++ [Instruction.command ()])

/-- The compiled cartesian loop over the three targets, with a single
`Command` as body. -/
def comboProgram : List (Instruction Unit) :=
  buildCombinationLoop [3, 4, 5] [.varT 0, .varT 1, .varT 2] []
    (fun ins => ins ++ [Instruction.command ()])

/-- Offsets logged by running the lock-step loop. -/
def groupLog : List (Nat × Nat × Nat) :=
  match runProgram logIface false 20 groupProgram 500 [] loopTestState with
  | (RunOutcome.finishedOk e _, _) => e
  | _ => [(777, 777, 777)]

/-- Offsets logged by running the cartesian loop. -/
def comboLog : List (Nat × Nat × Nat) :=
  match runProgram logIface false 20 comboProgram 2000 [] loopTestState with
  | (RunOutcome.finishedOk e _, _) => e
  | _ => [(777, 777, 777)]

/-- One `ObjectIter::next` outcome (`src/bed/commands.rs`): yield one
argument string, end of iteration (`None`), or a panic. -/
inductive IterStep where
  | yieldS (s : String)
  | done
  | panicS
  deriving Repr, DecidableEq

/-- The dereference performed by `ObjectIter::object_iter` before
iteration starts; the Rust code `.unwrap()`s, so `none` is a panic. -/
def objectIterInit (st : ProgramState) (fuel : Nat) (o : Object) :
    Option Object :=
  match o with
  | Object.ref r => evaluateRef st fuel r
  | o => some o

/-- Rust `ObjectIter::next` in the `Iter` state, on the (already
dereferenced) object and current index: a `Counter` yields
`start + idx` while `idx < len`; a `Struct` yields its base exactly
once; a `List` yields the base of the struct at position `idx`, ends
past the end, and hits `panic!("Cannot iterate over list of non-struct
values")` on a non-struct element; the `Ref` state is `unreachable!()`
(a panic). -/
def objectIterNext (o : Object) (idx : Nat) : IterStep :=
  match o with
  | Object.counter _ start stop =>
      if idx ≥ counterLen start stop then .done
      else .yieldS (toString (start + (idx : Int)))
  | Object.strct b _ => if idx > 0 then .done else .yieldS b
  | Object.list es =>
      match es.get? idx with
      | none => .done
      | some (Object.strct b _) => .yieldS b
      | some _ => .panicS
  | Object.ref _ => .panicS

/-- Rust `enum ProcessState` (`src/bed/process.rs`), with the `io::Error`
payload embedded as a message string and `Failed`'s
`Option<i32>` exit code as `Option Int`. -/
inductive ProcessState where
  | running
  | killed
  | errorS (msg : String)
  | failedS (code : Option Int)
  | finished
  deriving Repr, DecidableEq

/-- Rust `ProcessBar::set_state` acting on the stored status: an argument of
`Running` returns early (leaving the stored state), any other argument
overwrites the stored state unconditionally. -/
def setState (stored new : ProcessState) : ProcessState :=
  match new with
  | .running => stored
  | _ => new

/-- Whether a state is terminal (everything except `Running`). -/
def ProcessState.isTerminal : ProcessState → Bool
  | .running => false
  | _ => true

/-- Rust `ProcessStatus::kill`: an OS-level kill success transitions to
`Killed`, a failure to `Error`, both through `set_state`. -/
def killStatus (stored : ProcessState) (osKillOk : Bool) (msg : String) :
    ProcessState :=
  if osKillOk then setState stored .killed else setState stored (.errorS msg)

/-- Outcome of one non-blocking OS poll (`Child::try_wait`). -/
inductive TryWaitRes where
  | notExited
  | exited (success : Bool) (code : Option Int)
  | errorP (msg : String)

/-- Rust `ProcessInfo::try_wait` acting on the stored status: still-running
polls change nothing; an exit transitions to `Finished`/`Failed` by
exit-status success; a poll error transitions to `Error`.  The `Bool`
is the returned "has terminated" flag. -/
def tryWaitState (stored : ProcessState) (p : TryWaitRes) :
    ProcessState × Bool :=
  match p with
  | .notExited => (stored, false)
  | .exited true _ => (setState stored .finished, true)
  | .exited false code => (setState stored (.failedS code), true)
  | .errorP m => (setState stored (.errorS m), true)

/-- Rust `SLEEP_TIME` (`src/bed/mod.rs`): the fixed 100 ms polling tick. -/
def SLEEP_TIME_MS : Nat := 100

/-- Rust `Vec::swap_remove(i)`: replace element `i` with the last element
and pop (callers guarantee `i` is in range). -/
def swapRemove (l : List Nat) (i : Nat) : List Nat :=
  match l.getLast? with
  | none => l
  | some last => (l.set i last).dropLast

/-- The inner sweep of `TestBed::wait_all`: walk the process table with
an index, `swap_remove`-ing every process whose `try_wait` reports
termination.  `exited p` is the oracle for "`try_wait` on process `p`
returns true".  The walk terminates because `length - i` shrinks every
step; `fuel` makes that bound explicit (`sweep` below supplies enough
fuel for the walk to always finish). -/
def sweepAux (exited : Nat → Bool) : Nat → List Nat → Nat → List Nat
  | 0, l, _ => l
  | fuel + 1, l, i =>
      if h : i < l.length then
        if exited (l.get ⟨i, h⟩) then sweepAux exited fuel (swapRemove l i) i
        else sweepAux exited fuel l (i + 1)
      else l

/-- One full sweep over the process table. -/
def sweep (exited : Nat → Bool) (l : List Nat) : List Nat :=
  sweepAux exited (l.length + 1) l 0

/-- Whether the `now.elapsed() < duration` check still holds at poll
iteration `tick`, with elapsed time modelled as one `SLEEP_TIME` per
iteration; `wait = none` is the `u64::MAX` (practically infinite)
duration used by admission control. -/
def withinDuration (wait : Option Nat) (tick : Nat) : Bool :=
  match wait with
  | none => true
  | some d => tick * SLEEP_TIME_MS < d

/-- Rust `TestBed::wait_all` (`src/bed/mod.rs`): loop while at least
`max remaining 1` processes remain and the duration has not elapsed;
each iteration first re-checks the cancellation flag (if set, break and
run `shutdown`, which kills and drains every process), otherwise sweep
the table and sleep one tick.  `exited tick pid` says whether process
`pid` polls as terminated at iteration `tick`; `flag tick` is the
cancellation flag at that iteration.  Returns the final table (`none`
when `fuel` iterations were not enough, i.e. the wait is still
blocking) and the trace of table sizes after each mutation. -/
def waitAllModel (exited : Nat → Nat → Bool) (flag : Nat → Bool)
    (wait : Option Nat) (remaining : Nat) :
    Nat → Nat → List Nat → Option (List Nat) × List Nat
  | 0, _, _ => (none, [])
  | fuel + 1, tick, procs =>
      if max remaining 1 ≤ procs.length && withinDuration wait tick then
        if flag tick then (some [], [0])
        else
          let procs2 := sweep (exited tick) procs
          let res := waitAllModel exited flag wait remaining fuel (tick + 1) procs2
          (res.1, procs2.length :: res.2)
      else (some procs, [])

/-- Rust `enum Command` of the process-orchestration executor
(`src/bed/commands.rs`), abstracted to what `TestBed::execute`
observes: `spawnC pid evalErr runOk` is a `Spawn` whose
`Spawn::evaluate` outcome is `evalErr` and whose OS-level
`ProcessInfo::run` outcome is `runOk` (the spawned handle is `pid`). -/
inductive BedCmd where
  | limitSpawn (n : Nat)
  | sleepC (ms : Nat)
  | spawnC (pid : Nat) (evalErr : Option VariableAccessError) (runOk : Bool)
  | waitAllC (timeout : Option Nat)

/-- The supervisor state `TestBed::execute` manipulates: the optional
concurrency limit and the table of running children. -/
structure BedState where
  spawnLimit : Option Nat
  processes : List Nat
  deriving Repr, DecidableEq

/-- Outcome of executing one supervisor command: normal return, an
error propagated to the interpreter (`Spawn::evaluate` failure), or a
wait that is still blocking after the supplied fuel. -/
inductive BedRes where
  | okB (st : BedState)
  | errB (e : VariableAccessError) (st : BedState)
  | blockedB

/-- Rust `TestBed::execute` (`src/bed/mod.rs`), per command.  For `Spawn`:
if a limit is set and the table is full, block in
`wait_all(None, limit)` first; then evaluate the spawn (an evaluation
error propagates); then `ProcessInfo::run` — on error the failure is
printed and the method returns `Ok` *without* registering the process,
otherwise the new process is pushed.  The returned list extends the
trace of table sizes. -/
def bedExecute (exited : Nat → Nat → Bool) (flag : Nat → Bool)
    (fuel : Nat) (st : BedState) : BedCmd → BedRes × List Nat
  | .limitSpawn n => (.okB { st with spawnLimit := some n }, [])
  | .sleepC _ => (.okB st, [])
  | .waitAllC t =>
      let r := waitAllModel exited flag t 0 fuel 0 st.processes
      match r.1 with
      | some procs => (.okB { st with processes := procs }, r.2)
      | none => (.blockedB, r.2)
  | .spawnC pid evalErr runOk =>
      let w : Option (List Nat) × List Nat :=
        match st.spawnLimit with
        | some l =>
            if l ≤ st.processes.length then
              waitAllModel exited flag none l fuel 0 st.processes
            else (some st.processes, [])
        | none => (some st.processes, [])
      match w.1 with
      | none => (.blockedB, w.2)
      | some procs =>
          match evalErr with
          | some e => (.errB e { st with processes := procs }, w.2)
          | none =>
              if runOk then
                (.okB { st with processes := procs ++ [pid] },
                  w.2 ++ [procs.length + 1])
              else (.okB { st with processes := procs }, w.2)

/-- Run a command sequence through `bedExecute`, accumulating the trace
of table sizes; stops at the first non-`ok` outcome. -/
def runBed (exited : Nat → Nat → Bool) (flag : Nat → Bool) (fuel : Nat) :
    BedState → List BedCmd → BedRes × List Nat
  | st, [] => (.okB st, [])
  | st, c :: rest =>
      let r := bedExecute exited flag fuel st c
      match r.1 with
      | .okB st2 =>
          let r2 := runBed exited flag fuel st2 rest
          (r2.1, r.2 ++ r2.2)
      | other => (other, r.2)

/-- Whether a guard's condition resolves to a struct whose base is the
literal string `"false"` (the polarity under which the interpreter does
*not* jump). -/
def guardFalse (st : ProgramState) (pfuel : Nat) (c : VarFieldId) : Bool :=
  match evalCondJump st pfuel c with
  | .ok (b, _) => b == "false"
  | _ => false

/-- Position of the first guard in a sequence whose base is *not*
`"false"` (the guard that triggers the skip), if any. -/
def firstTrueGuard (st : ProgramState) (pfuel : Nat) :
    List VarFieldId → Option Nat
  | [] => none
  | c :: rest =>
      if guardFalse st pfuel c then
        (firstTrueGuard st pfuel rest).map (· + 1)
      else some 0

/-- A chain of `n` nested `Ref`s from `r` through the scope stack whose
targets all exist, ending at the non-`Ref` object `o` that the final
reference's target holds directly. -/
inductive Chases (st : ProgramState) : VariableRef → Nat → Object → Prop where
  | last (r : VariableRef) (o : Object) (hstep : refStep st r = some o)
      (hnotref : ∀ r2, o ≠ Object.ref r2) : Chases st r 0 o
  | step (r r2 : VariableRef) (n : Nat) (o : Object)
      (hstep : refStep st r = some (Object.ref r2))
      (hrest : Chases st r2 n o) : Chases st r (n + 1) o

set_option maxRecDepth 8000

/-- C3: over three non-empty targets of lengths 3, 5 and 2, the
compiled lock-step ("group") loop runs its body exactly 2 times — the
minimum length, all iterator offsets advancing together — and the
compiled cartesian ("combinations") loop runs its body exactly 30
times — the product — visiting every offset combination once with the
later-listed iterator varying fastest. -/
theorem loop_compiler_iteration_counts :
    groupLog = [(0, 0, 0), (1, 1, 1)] ∧
    groupLog.length = 2 ∧
    comboLog.length = 30 ∧
    comboLog = (List.range 3).flatMap (fun i =>
      (List.range 5).flatMap (fun j =>
        (List.range 2).map (fun k => (i, j, k)))) := by
  exact ⟨by decide, by decide, by decide, by decide⟩

/-- C4 counterexample: the claim says that once the stored state is
terminal, any further `set_state` call leaves it unchanged; but
`ProcessBar::set_state` only early-returns on a `Running` argument, so
`set_state(Killed)` on a stored `Finished` state overwrites it. -/
theorem set_state_terminal_overwrite_cex :
    setState ProcessState.finished ProcessState.killed =
      ProcessState.killed ∧
    ProcessState.killed ≠ ProcessState.finished := by
  exact ⟨rfl, by decide⟩

/-- C4 amended: `set_state` is a no-op only for a `Running` argument;
any non-`Running` argument — including a terminal state on top of
another terminal state, e.g. `ProcessStatus::kill` after `Finished` —
overwrites the stored state, so terminal transitions are not
one-shot. -/
theorem set_state_running_only_noop :
    (∀ stored : ProcessState, setState stored ProcessState.running = stored) ∧
    (∀ stored s2 : ProcessState, s2 ≠ ProcessState.running →
      setState stored s2 = s2) ∧
    killStatus ProcessState.finished true "" = ProcessState.killed := by
  refine ⟨fun stored => rfl, fun stored s2 h => ?_, rfl⟩
  cases s2 <;> simp [setState] at h ⊢

/-- Witness for the amended C4 theorem at concrete states. -/
theorem set_state_running_only_noop_witness :
    (ProcessState.killed ≠ ProcessState.running) ∧
    setState ProcessState.finished ProcessState.killed =
      ProcessState.killed := by
  exact ⟨by decide, set_state_running_only_noop.2.1 ProcessState.finished
    ProcessState.killed (by decide)⟩

/-- C5 counterexample: the claim says splat iteration never panics even
for lists containing non-`Struct` elements, but `ObjectIter::next`
executes `panic!("Cannot iterate over list of non-struct values")` when
the element at the current index is not a `Struct` — here a nested
empty list at index 0. -/
theorem object_iter_panic_cex :
    objectIterNext (Object.list [Object.list []]) 0 = IterStep.panicS := rfl

/-- C5 amended: `ObjectIter::next` over a list yields the `base` of
each `Struct` element and ends past the last element, but panics
exactly when the current element is not a `Struct` (instead of
returning a `VariableAccessError`); iteration over a `Counter` or a
`Struct` never panics; shape mismatches in path resolution itself are
still reported through the enumerated error values, e.g. an unbound
variable resolves to `MissingVariable`. -/
theorem object_iter_amended :
    (∀ (es : List Object) (i : Nat),
      objectIterNext (Object.list es) i = IterStep.panicS ↔
        ∃ o, es.get? i = some o ∧ ∀ b ps, o ≠ Object.strct b ps) ∧
    (∀ (es : List Object) (i : Nat) (b : String)
        (ps : List (VarNameId × Object)),
      es.get? i = some (Object.strct b ps) →
        objectIterNext (Object.list es) i = IterStep.yieldS b) ∧
    (∀ (es : List Object) (i : Nat), es.length ≤ i →
        objectIterNext (Object.list es) i = IterStep.done) ∧
    (∀ (off : Nat) (start stop : Int) (i : Nat),
        objectIterNext (Object.counter off start stop) i ≠ IterStep.panicS) ∧
    (∀ (b : String) (ps : List (VarNameId × Object)) (i : Nat),
        objectIterNext (Object.strct b ps) i ≠ IterStep.panicS) ∧
    (∀ (st : ProgramState) (id : VarFieldId) (fuel : Nat),
        ProgramState.getValue st id.var = none →
        ProgramState.getObjectP st (fuel + 1) id =
          ERes.err (VariableAccessError.missingVariable id.var)) := by
  refine ⟨?_, ?_, ?_, ?_, ?_, ?_⟩
  · intro es i
    simp only [objectIterNext]
    constructor
    · intro h
      cases hg : es.get? i with
      | none => rw [hg] at h; exact absurd h (by simp)
      | some o =>
          refine ⟨o, rfl, ?_⟩
          intro b ps hbp
          rw [hg, hbp] at h
          exact absurd h (by simp)
    · rintro ⟨o, hg, hne⟩
      rw [hg]
      cases o with
      | strct b ps => exact absurd rfl (hne b ps)
      | counter off s e => rfl
      | ref r => rfl
      | list es2 => rfl
  · intro es i b ps h
    simp only [objectIterNext]
    rw [h]
  · intro es i h
    simp only [objectIterNext]
    rw [List.get?_eq_none.mpr h]
  · intro off start stop i
    simp only [objectIterNext]
    split <;> simp
  · intro b ps i
    simp only [objectIterNext]
    split <;> simp
  · intro st id fuel h
    simp only [ProgramState.getObjectP, evalPath]
    rw [h]

/-- Witness for the amended C5 theorem: a list whose element 0 is a
struct yields that struct's base. -/
theorem object_iter_amended_witness :
    ([Object.strct "a" []].get? 0 = some (Object.strct "a" [])) ∧
    objectIterNext (Object.list [Object.strct "a" []]) 0 =
      IterStep.yieldS "a" := by
  exact ⟨rfl, object_iter_amended.2.1 [Object.strct "a" []] 0 "a" [] rfl⟩

/-- C8 counterexample: indexing by a name-style key returns the *first*
struct whose base matches, so appending a struct with base `"x"` to a
list that already holds a (different) struct with base `"x"` and then
looking `"x"` up returns the earlier struct, not the appended one. -/
theorem name_key_first_match_cex :
    ListIdx.getObject (ListIdx.str "x")
        ([Object.strct "x" []] ++
          [Object.strct "x" [(0, Object.strct "p" [])]]) =
      ERes.ok (Object.strct "x" []) ∧
    Object.strct "x" [] ≠ Object.strct "x" [(0, Object.strct "p" [])] := by
  refine ⟨rfl, ?_⟩
  intro h
  simp at h

/-- C8 amended: appending a struct with base `b` to a list none of
whose elements is already a struct with base `b`, then indexing with
`b` as a name-style key, returns the appended struct — with duplicate
bases the first match wins; and a struct key becomes a name-style key
exactly because its base fails to parse as an integer
(`object_to_idx`). -/
theorem name_key_round_trip_amended :
    (∀ (l : List Object) (b : String) (ps : List (VarNameId × Object)),
      (∀ o ∈ l, ∀ ps0, o ≠ Object.strct b ps0) →
      ListIdx.getObject (ListIdx.str b) (l ++ [Object.strct b ps]) =
        ERes.ok (Object.strct b ps)) ∧
    (∀ (st : ProgramState) (fuel : Nat) (b : String)
        (ps : List (VarNameId × Object)), parseUsize b = none →
      objectToIdx st fuel (Object.strct b ps) = some (ListIdx.str b)) := by
  constructor
  · intro l b ps hfresh
    induction l with
    | nil => simp [ListIdx.getObject, List.findSome?_cons]
    | cons o rest ih =>
        have hrest : ∀ o2 ∈ rest, ∀ ps0, o2 ≠ Object.strct b ps0 :=
          fun o2 h2 => hfresh o2 (List.mem_cons_of_mem o h2)
        have hstep := ih hrest
        simp only [ListIdx.getObject, List.cons_append, List.findSome?_cons]
        cases o with
        | counter off s e => simpa [ListIdx.getObject] using hstep
        | ref r => simpa [ListIdx.getObject] using hstep
        | list es => simpa [ListIdx.getObject] using hstep
        | strct b2 ps2 =>
            have hb2 : ¬ b2 = b := by
              intro hb
              exact hfresh (Object.strct b2 ps2) (List.mem_cons_self _ _) ps2
                (by rw [hb])
            simp only [hb2, if_false]
            simpa [ListIdx.getObject] using hstep
  · intro st fuel b ps h
    simp [objectToIdx, objectToIdxBase, h]

/-- Witness for the amended C8 theorem at a concrete list and
struct. -/
theorem name_key_round_trip_amended_witness :
    (∀ o ∈ [Object.strct "y" []], ∀ ps0, o ≠ Object.strct "x" ps0) ∧
    ListIdx.getObject (ListIdx.str "x")
        ([Object.strct "y" []] ++
          [Object.strct "x" [(0, Object.strct "p" [])]]) =
      ERes.ok (Object.strct "x" [(0, Object.strct "p" [])]) := by
  have hfresh : ∀ o ∈ [Object.strct "y" []], ∀ ps0,
      o ≠ Object.strct "x" ps0 := by
    intro o ho ps0
    simp only [List.mem_singleton] at ho
    subst ho
    simp
  exact ⟨hfresh, name_key_round_trip_amended.1 [Object.strct "y" []] "x"
    [(0, Object.strct "p" [])] hfresh⟩

/-- C7: for every scope stack and every chain of `n` nested `Ref`s
whose targets all exist, `evaluate_ref` on the head of the chain (with
any fuel exceeding the chain length) yields exactly the concrete
non-`Ref` object — the `Struct`, `Counter` or `List` — obtained by
looking the final reference's target up directly: `Ref`-chasing is
transparent and composes across the chain length. -/
theorem ref_chain_transparent :
    ∀ (st : ProgramState) (r : VariableRef) (n : Nat) (o : Object)
      (fuel : Nat), Chases st r n o → n < fuel →
      evaluateRef st fuel r = some o := by
  intro st r n o fuel hch
  induction hch generalizing fuel with
  | last r o hstep hnotref =>
      intro hfuel
      obtain ⟨f, rfl⟩ : ∃ f, fuel = f + 1 :=
        ⟨fuel - 1, by omega⟩
      simp only [evaluateRef]
      rw [hstep]
      cases o with
      | ref r2 => exact absurd rfl (hnotref r2)
      | counter off s e => rfl
      | strct b ps => rfl
      | list es => rfl
  | step r r2 n o hstep hrest ih =>
      intro hfuel
      obtain ⟨f, rfl⟩ : ∃ f, fuel = f + 1 :=
        ⟨fuel - 1, by omega⟩
      simp only [evaluateRef]
      rw [hstep]
      exact ih f (by omega)

/-- Witness for C7: a two-`Ref` chain in one scope resolves to the
struct held by the final target. -/
theorem ref_chain_transparent_witness :
    Chases ⟨[[(0, Object.strct "v" []), (1, Object.ref ⟨0, 0, 0⟩),
        (2, Object.ref ⟨0, 1, 0⟩)]]⟩ ⟨0, 2, 0⟩ 2 (Object.strct "v" []) ∧
    evaluateRef ⟨[[(0, Object.strct "v" []), (1, Object.ref ⟨0, 0, 0⟩),
        (2, Object.ref ⟨0, 1, 0⟩)]]⟩ 3 ⟨0, 2, 0⟩ =
      some (Object.strct "v" []) := by
  have hch : Chases ⟨[[(0, Object.strct "v" []), (1, Object.ref ⟨0, 0, 0⟩),
      (2, Object.ref ⟨0, 1, 0⟩)]]⟩ ⟨0, 2, 0⟩ 2 (Object.strct "v" []) := by
    refine Chases.step _ ⟨0, 1, 0⟩ _ _ rfl ?_
    refine Chases.step _ ⟨0, 0, 0⟩ _ _ rfl ?_
    refine Chases.last _ _ rfl ?_
    intro r2
    simp
  exact ⟨hch, ref_chain_transparent _ _ 2 _ 3 hch (by omega)⟩

/-- Replacing a binding makes the new value visible under its key. -/
theorem alookup_ainsert_self (s : Scope) (k : VarNameId) (v : Object) :
    alookup (ainsert s k v) k = some v := by
  induction s with
  | nil => simp [ainsert, alookup]
  | cons kv rest ih =>
      obtain ⟨k2, v2⟩ := kv
      by_cases h : k2 = k
      · simp [ainsert, h, alookup]
      · simp [ainsert, h, alookup, ih]

/-- When no scope binds the variable, the innermost-first update finds
nothing either. -/
theorem getValueScopes_none_set_none (ss : List Scope) (v : VarNameId)
    (o : Object) (h : getValueScopes ss v = none) :
    setValueScopes ss v o = none := by
  induction ss with
  | nil => rfl
  | cons s rest ih =>
      simp only [getValueScopes] at h
      cases hr : getValueScopes rest v with
      | some p => rw [hr] at h; simp at h
      | none =>
          rw [hr] at h
          cases ha : alookup s v with
          | some o2 => rw [ha] at h; simp at h
          | none => simp only [setValueScopes, ih hr, ha]

/-- The innermost-first update on a bound variable succeeds, rebinding
the same owning scope (same index) to the new value and preserving the
stack shape. -/
theorem setValueScopes_found (ss : List Scope) (v : VarNameId)
    (o : Object) :
    ∀ (i : Nat) (old : Object), getValueScopes ss v = some (i, old) →
    ∃ ss2, setValueScopes ss v o = some ss2 ∧
      getValueScopes ss2 v = some (i, o) ∧ ss2.length = ss.length := by
  induction ss with
  | nil => intro i old h; simp [getValueScopes] at h
  | cons s rest ih =>
      intro i old h
      simp only [getValueScopes] at h
      cases hr : getValueScopes rest v with
      | some p =>
          obtain ⟨j, o2⟩ := p
          rw [hr] at h
          simp only [Option.some.injEq, Prod.mk.injEq] at h
          obtain ⟨hi, _⟩ := h
          obtain ⟨rest2, hset, hget, hlen⟩ := ih j o2 hr
          refine ⟨s :: rest2, ?_, ?_, ?_⟩
          · simp only [setValueScopes, hset]
          · simp only [getValueScopes, hget, hi]
          · simp [hlen]
      | none =>
          rw [hr] at h
          cases ha : alookup s v with
          | none => rw [ha] at h; simp at h
          | some o2 =>
              rw [ha] at h
              simp only [Option.some.injEq, Prod.mk.injEq] at h
              obtain ⟨hi, _⟩ := h
              refine ⟨ainsert s v o :: rest, ?_, ?_, ?_⟩
              · simp only [setValueScopes,
                  getValueScopes_none_set_none rest v o hr, ha]
              · simp only [getValueScopes, hr, alookup_ainsert_self, hi]
              · simp [ainsert]

/-- C10 counterexample: `AssignVar` with no explicit scope on an
unbound target succeeds (the interpreter moves to the next
instruction without an error) yet binds nothing — looking the target
up afterwards still fails, contradicting the claim that a successful
`AssignVar` always makes the evaluated object visible. -/
theorem assign_var_unbound_noop_cex :
    step logIface false 5
        (Instruction.assignVar 0 none
          (ObjectExpr.strctE [StringInstance.lit "v"] [])) 0 [] ⟨[[]]⟩ =
      StepRes.next 1 [] ⟨[[]]⟩ ∧
    ProgramState.getValue ⟨[[]]⟩ 0 = none := ⟨rfl, rfl⟩

/-- C10 amended: when some scope binds the target, `AssignVar` with no
explicit scope evaluates the value expression and overwrites the
binding in the innermost scope containing the target (same owning
scope index, stack shape preserved), after which lookup yields the new
object; when no scope binds the target, `AssignVar` succeeds but is a
silent no-op. -/
theorem assign_var_bound_overwrites :
    (∀ {C E : Type} (iface : ExecIface C E) (flag : Bool) (pfuel : Nat)
      (st : ProgramState) (target : VarNameId) (value : ObjectExpr)
      (pc : Nat) (e : E) (o : Object) (i : Nat) (old : Object),
      ObjectExpr.evaluate st pfuel value = ERes.ok o →
      ProgramState.getValue st target = some (i, old) →
      ∃ st2,
        step iface flag pfuel (Instruction.assignVar target none value)
            pc e st = StepRes.next (pc + 1) e st2 ∧
        ProgramState.getValue st2 target = some (i, o) ∧
        st2.scopes.length = st.scopes.length) ∧
    (∀ {C E : Type} (iface : ExecIface C E) (flag : Bool) (pfuel : Nat)
      (st : ProgramState) (target : VarNameId) (value : ObjectExpr)
      (pc : Nat) (e : E) (o : Object),
      ObjectExpr.evaluate st pfuel value = ERes.ok o →
      ProgramState.getValue st target = none →
      step iface flag pfuel (Instruction.assignVar target none value)
          pc e st = StepRes.next (pc + 1) e st) := by
  constructor
  · intro C E iface flag pfuel st target value pc e o i old hev hgv
    obtain ⟨ss2, hset, hget, hlen⟩ :=
      setValueScopes_found st.scopes target o i old hgv
    refine ⟨⟨ss2⟩, ?_, hget, hlen⟩
    simp only [step, hev, ProgramState.setValue, hset]
    rfl
  · intro C E iface flag pfuel st target value pc e o hev hgv
    have hnone : setValueScopes st.scopes target o = none :=
      getValueScopes_none_set_none st.scopes target o hgv
    simp only [step, hev, ProgramState.setValue, hnone]
    rfl

/-- Witness for the amended C10 theorem: overwriting the single
binding of variable 0. -/
theorem assign_var_bound_overwrites_witness :
    (ObjectExpr.evaluate ⟨[[(0, Object.strct "old" [])]]⟩ 5
        (ObjectExpr.strctE [StringInstance.lit "v"] []) =
      ERes.ok (Object.strct "v" [])) ∧
    (ProgramState.getValue ⟨[[(0, Object.strct "old" [])]]⟩ 0 =
      some (0, Object.strct "old" [])) ∧
    (∃ st2,
      step logIface false 5
          (Instruction.assignVar 0 none
            (ObjectExpr.strctE [StringInstance.lit "v"] [])) 0 []
          ⟨[[(0, Object.strct "old" [])]]⟩ =
        StepRes.next 1 [] st2 ∧
      ProgramState.getValue st2 0 = some (0, Object.strct "v" []) ∧
      st2.scopes.length =
        (⟨[[(0, Object.strct "old" [])]]⟩ : ProgramState).scopes.length) := by
  refine ⟨rfl, rfl, ?_⟩
  exact assign_var_bound_overwrites.1 logIface false 5
    ⟨[[(0, Object.strct "old" [])]]⟩ 0
    (ObjectExpr.strctE [StringInstance.lit "v"] []) 0 []
    (Object.strct "v" []) 0 (Object.strct "old" []) rfl rfl

/-- C1: executing `ConditionalJump` when the condition resolves
(possibly through a `Ref`) to a struct moves the program counter to the
jump target precisely when the struct's base differs from the literal
string `"false"`, and falls through otherwise; consequently, running a
block guarded by consecutive `ConditionalJump`s sharing a skip target
`j` reaches the instruction after the guards (the block) exactly when
every guard's base equals `"false"`, and otherwise transfers control to
`j` at the first offending guard, the state and executor untouched
either way. -/
theorem conditional_jump_skips_unless_base_false :
    (∀ {C E : Type} (iface : ExecIface C E) (flag : Bool) (pfuel : Nat)
      (cond : VarFieldId) (jump pc : Nat) (e : E) (st : ProgramState)
      (b : String) (ps : List (VarNameId × Object)),
      evalCondJump st pfuel cond = ERes.ok (b, ps) →
      step iface flag pfuel (Instruction.conditionalJump cond jump) pc e st =
        StepRes.next (if b = "false" then pc + 1 else jump) e st) ∧
    (∀ (st : ProgramState) (pfuel : Nat) (conds : List VarFieldId),
      firstTrueGuard st pfuel conds = none ↔
        ∀ c ∈ conds, guardFalse st pfuel c = true) ∧
    (∀ {C E : Type} (iface : ExecIface C E) (pfuel : Nat)
      (P : List (Instruction C)) (conds : List VarFieldId) (j : Nat)
      (pc fuel : Nat) (e : E) (st : ProgramState) (evs : List Event),
      (∀ i (h : i < conds.length),
        P.get? (pc + i) =
          some (Instruction.conditionalJump (conds.get ⟨i, h⟩) j)) →
      (∀ c ∈ conds, ∃ b ps, evalCondJump st pfuel c = ERes.ok (b, ps)) →
      conds.length ≤ fuel →
      ((firstTrueGuard st pfuel conds = none →
          ∃ tr, runAux iface false pfuel P fuel pc e st evs =
            runAux iface false pfuel P (fuel - conds.length)
              (pc + conds.length) e st (evs ++ tr)) ∧
       (∀ m, firstTrueGuard st pfuel conds = some m →
          ∃ tr, runAux iface false pfuel P fuel pc e st evs =
            runAux iface false pfuel P (fuel - (m + 1)) j e st
              (evs ++ tr)))) := by
  refine ⟨?_, ?_, ?_⟩
  · intro C E iface flag pfuel cond jump pc e st b ps h
    simp only [step, h]
    by_cases hb : b = "false" <;> simp [hb]
  · intro st pfuel conds
    induction conds with
    | nil => simp [firstTrueGuard]
    | cons c rest ih =>
        by_cases hg : guardFalse st pfuel c
        · simp [firstTrueGuard, hg, ih, Option.map_eq_none']
        · simp [firstTrueGuard, hg]
  · intro C E iface pfuel P conds j
    induction conds with
    | nil =>
        intro pc fuel e st evs hP hall hfuel
        constructor
        · intro _
          exact ⟨[], by simp⟩
        · intro m hm
          simp [firstTrueGuard] at hm
    | cons c rest ih =>
        intro pc fuel e st evs hP hall hfuel
        have h0 : P.get? pc = some (Instruction.conditionalJump c j) := by
          have h00 := hP 0 (by simp)
          simpa using h00
        obtain ⟨b, ps, hok⟩ := hall c (List.mem_cons_self c rest)
        obtain ⟨f, rfl⟩ : ∃ f, fuel = f + 1 :=
          ⟨fuel - 1, by simp at hfuel; omega⟩
        have hfuel2 : rest.length ≤ f := by simp at hfuel; omega
        have hP2 : ∀ i (h : i < rest.length),
            P.get? (pc + 1 + i) =
              some (Instruction.conditionalJump (rest.get ⟨i, h⟩) j) := by
          intro i h
          have h2 := hP (i + 1) (by simpa using Nat.succ_lt_succ h)
          have harith : pc + (i + 1) = pc + 1 + i := by omega
          rw [harith] at h2
          simpa using h2
        have hall2 : ∀ c2 ∈ rest, ∃ b2 ps2,
            evalCondJump st pfuel c2 = ERes.ok (b2, ps2) :=
          fun c2 h2 => hall c2 (List.mem_cons_of_mem c h2)
        by_cases hb : b = "false"
        · have hgf : guardFalse st pfuel c = true := by
            simp [guardFalse, hok, hb]
          have hstep : step iface false pfuel
              (Instruction.conditionalJump c j) pc e st =
              StepRes.next (pc + 1) e st := by
            simp [step, hok, hb]
          have hrun : runAux iface false pfuel P (f + 1) pc e st evs =
              runAux iface false pfuel P f (pc + 1) e st
                (evs ++ [Event.exec pc]) := by
            simp only [runAux, h0, hstep]
            simp
          obtain ⟨ihnone, ihsome⟩ := ih (pc + 1) f e st
            (evs ++ [Event.exec pc]) hP2 hall2 hfuel2
          constructor
          · intro hnone
            have hrest : firstTrueGuard st pfuel rest = none := by
              simp [firstTrueGuard, hgf, Option.map_eq_none'] at hnone
              exact hnone
            obtain ⟨tr, htr⟩ := ihnone hrest
            refine ⟨Event.exec pc :: tr, ?_⟩
            rw [hrun, htr]
            have e1 : f + 1 - (c :: rest).length = f - rest.length := by
              simp
            have e2 : pc + (c :: rest).length = pc + 1 + rest.length := by
              simp; omega
            rw [e1, e2]
            simp
          · intro m hm
            have hm2 : ∃ m2, firstTrueGuard st pfuel rest = some m2 ∧
                m = m2 + 1 := by
              simp only [firstTrueGuard, hgf, if_true] at hm
              obtain ⟨m2, hm2, hmm⟩ := Option.map_eq_some'.mp hm
              exact ⟨m2, hm2, hmm.symm⟩
            obtain ⟨m2, hrest, rfl⟩ := hm2
            obtain ⟨tr, htr⟩ := ihsome m2 hrest
            refine ⟨Event.exec pc :: tr, ?_⟩
            rw [hrun, htr]
            have e1 : f + 1 - (m2 + 1 + 1) = f - (m2 + 1) := by omega
            rw [e1]
            simp
        · have hgf : guardFalse st pfuel c = false := by
            simp [guardFalse, hok, hb]
          have hstep : step iface false pfuel
              (Instruction.conditionalJump c j) pc e st =
              StepRes.next j e st := by
            simp [step, hok, hb]
          have hrun : runAux iface false pfuel P (f + 1) pc e st evs =
              runAux iface false pfuel P f j e st
                (evs ++ [Event.exec pc]) := by
            simp only [runAux, h0, hstep]
            simp
          constructor
          · intro hnone
            simp [firstTrueGuard, hgf] at hnone
          · intro m hm
            simp [firstTrueGuard, hgf] at hm
            subst hm
            refine ⟨[Event.exec pc], ?_⟩
            rw [hrun]
            simp

/-- Witness for C1: a base of `"go"` makes the single-step theorem
jump, and a single guard with base `"false"` lets the run fall through
to the guarded block. -/
theorem conditional_jump_witness :
    (evalCondJump ⟨[[(0, Object.strct "go" [])]]⟩ 5 (VarFieldId.new 0) =
      ERes.ok ("go", [])) ∧
    (step logIface false 5
        (Instruction.conditionalJump (VarFieldId.new 0) 7) 0 []
        ⟨[[(0, Object.strct "go" [])]]⟩ =
      StepRes.next (if "go" = "false" then 0 + 1 else 7) []
        ⟨[[(0, Object.strct "go" [])]]⟩) ∧
    (∃ tr, runAux logIface false 5
        [Instruction.conditionalJump (VarFieldId.new 0) 2,
          Instruction.command ()] 1 0 []
        ⟨[[(0, Object.strct "false" [])]]⟩ [] =
      runAux logIface false 5
        [Instruction.conditionalJump (VarFieldId.new 0) 2,
          Instruction.command ()] (1 - [VarFieldId.new 0].length)
        (0 + [VarFieldId.new 0].length) []
        ⟨[[(0, Object.strct "false" [])]]⟩ ([] ++ tr)) := by
  refine ⟨rfl, ?_, ?_⟩
  · exact conditional_jump_skips_unless_base_false.1 logIface false 5
      (VarFieldId.new 0) 7 0 [] ⟨[[(0, Object.strct "go" [])]]⟩ "go" [] rfl
  · refine (conditional_jump_skips_unless_base_false.2.2 logIface 5
      [Instruction.conditionalJump (VarFieldId.new 0) 2,
        Instruction.command ()] [VarFieldId.new 0] 2 0 1 []
      ⟨[[(0, Object.strct "false" [])]]⟩ [] ?_ ?_ ?_).1 ?_
    · intro i h
      have hi : i = 0 := by simp at h; omega
      subst hi
      rfl
    · intro c hc
      have hc2 : c = VarFieldId.new 0 := by simpa using hc
      subst hc2
      exact ⟨"false", [], rfl⟩
    · simp
    · rfl

/-- C2: if executing the instruction at `pc` fails (an expression
evaluation or path resolution error), the interpreter returns
immediately with that instruction's index and the error; and whenever a
run returns `(i, error)`, the events show that the instruction at `i`
was the last one to execute — no later instruction ran — and the
`finish` hook was never invoked during that run. -/
theorem run_aborts_at_first_failure :
    (∀ {C E : Type} (iface : ExecIface C E) (pfuel : Nat)
      (P : List (Instruction C)) (fuel pc : Nat) (e : E)
      (st : ProgramState) (evs : List Event) (instr : Instruction C)
      (er : VariableAccessError) (e2 : E) (st2 : ProgramState),
      P.get? pc = some instr →
      step iface false pfuel instr pc e st = StepRes.failedI er e2 st2 →
      runAux iface false pfuel P (fuel + 1) pc e st evs =
        (RunOutcome.failed pc er e2 st2, evs ++ [Event.exec pc])) ∧
    (∀ {C E : Type} (iface : ExecIface C E) (flag : Bool) (pfuel : Nat)
      (P : List (Instruction C)) (fuel pc : Nat) (e : E)
      (st : ProgramState) (evs0 : List Event) (i : Nat)
      (er : VariableAccessError) (e2 : E) (st2 : ProgramState)
      (evs : List Event),
      runAux iface flag pfuel P fuel pc e st evs0 =
        (RunOutcome.failed i er e2 st2, evs) →
      ∃ tail, evs = evs0 ++ tail ∧
        tail.getLast? = some (Event.exec i) ∧
        Event.finished ∉ tail ∧ i < P.length) := by
  constructor
  · intro C E iface pfuel P fuel pc e st evs instr er e2 st2 hget hstep
    simp only [runAux, hget, hstep]
    simp
  · intro C E iface flag pfuel P fuel
    induction fuel with
    | zero =>
        intro pc e st evs0 i er e2 st2 evs h
        simp [runAux] at h
    | succ fuel ih =>
        intro pc e st evs0 i er e2 st2 evs h
        simp only [runAux] at h
        cases hp : P.get? pc with
        | none =>
            rw [hp] at h
            simp at h
        | some instr =>
            rw [hp] at h
            cases flag with
            | true => simp at h
            | false =>
                simp only [Bool.false_eq_true, if_false] at h
                cases hs : step iface false pfuel instr pc e st with
                | next pc2 e3 st3 =>
                    rw [hs] at h
                    obtain ⟨tail2, htail, hlast, hfin, hlt⟩ :=
                      ih pc2 e3 st3 (evs0 ++ [Event.exec pc]) i er e2 st2
                        evs h
                    refine ⟨Event.exec pc :: tail2, ?_, ?_, ?_, hlt⟩
                    · rw [htail]; simp
                    · cases tail2 with
                      | nil => simp at hlast
                      | cons a t =>
                          rw [List.getLast?_cons_cons]
                          exact hlast
                    · intro hmem
                      rcases List.mem_cons.mp hmem with h1 | h2
                      · exact absurd h1 (by simp)
                      · exact hfin h2
                | failedI er3 e3 st3 =>
                    rw [hs] at h
                    simp only [Prod.mk.injEq, RunOutcome.failed.injEq] at h
                    obtain ⟨⟨hpc, her, he, hst⟩, hevs⟩ := h
                    subst hpc
                    refine ⟨[Event.exec pc], hevs.symm, rfl, by simp, ?_⟩
                    by_contra hge
                    rw [List.get?_eq_none.mpr (by omega)] at hp
                    simp at hp
                | panicI =>
                    rw [hs] at h
                    simp at h

/-- Witness for C2: a one-instruction program whose `Print` path fails
with `MissingVariable` aborts at index 0 with that error, and the event
trace ends at the failing instruction with no `finish` event. -/
theorem run_aborts_at_first_failure_witness :
    (([Instruction.print (VarFieldId.new 9)] :
        List (Instruction Unit)).get? 0 =
      some (Instruction.print (VarFieldId.new 9))) ∧
    (step logIface false 5 (Instruction.print (VarFieldId.new 9)) 0 []
        ⟨[[]]⟩ =
      StepRes.failedI (VariableAccessError.missingVariable 9) [] ⟨[[]]⟩) ∧
    (runAux logIface false 5 [Instruction.print (VarFieldId.new 9)] 3 0 []
        ⟨[[]]⟩ [] =
      (RunOutcome.failed 0 (VariableAccessError.missingVariable 9) []
        ⟨[[]]⟩, [Event.exec 0])) ∧
    (∃ tail, ([Event.exec 0] : List Event) = [] ++ tail ∧
      tail.getLast? = some (Event.exec 0) ∧
      Event.finished ∉ tail ∧
      0 < ([Instruction.print (VarFieldId.new 9)] :
        List (Instruction Unit)).length) := by
  refine ⟨rfl, rfl, ?_, ?_⟩
  · exact run_aborts_at_first_failure.1 logIface 5
      [Instruction.print (VarFieldId.new 9)] 2 0 [] ⟨[[]]⟩ []
      (Instruction.print (VarFieldId.new 9))
      (VariableAccessError.missingVariable 9) [] ⟨[[]]⟩ rfl rfl
  · exact run_aborts_at_first_failure.2 logIface false 5
      [Instruction.print (VarFieldId.new 9)] 3 0 [] ⟨[[]]⟩ [] 0
      (VariableAccessError.missingVariable 9) [] ⟨[[]]⟩ [Event.exec 0]
      (by rfl)

/-- Rust `swap_remove` never grows the table. -/
theorem swapRemove_length_le (l : List Nat) (i : Nat) :
    (swapRemove l i).length ≤ l.length := by
  unfold swapRemove
  cases hl : l.getLast? with
  | none => exact le_refl _
  | some last =>
      simp [List.length_dropLast]


/-- Rust `swap_remove` keeps only elements of the original table. -/
theorem swapRemove_subset (l : List Nat) (i : Nat) (x : Nat)
    (h : x ∈ swapRemove l i) : x ∈ l := by
  unfold swapRemove at h
  cases hl : l.getLast? with
  | none => rw [hl] at h; exact h
  | some last =>
      rw [hl] at h
      have h2 : x ∈ l.set i last := List.dropLast_subset _ h
      rcases List.mem_or_eq_of_mem_set h2 with h3 | h3
      · exact h3
      · subst h3
        obtain ⟨hne, heq⟩ := List.mem_getLast?_eq_getLast hl
        rw [heq]
        exact List.getLast_mem hne

/-- The sweep never grows the table. -/
theorem sweepAux_length_le (ex : Nat → Bool) :
    ∀ (fuel : Nat) (l : List Nat) (i : Nat),
    (sweepAux ex fuel l i).length ≤ l.length := by
  intro fuel
  induction fuel with
  | zero => intro l i; exact le_refl _
  | succ fuel ih =>
      intro l i
      simp only [sweepAux]
      split
      · split
        · exact le_trans (ih _ _) (swapRemove_length_le l i)
        · exact ih _ _
      · exact le_refl _

/-- The sweep keeps only elements of the original table. -/
theorem sweepAux_subset (ex : Nat → Bool) :
    ∀ (fuel : Nat) (l : List Nat) (i : Nat) (x : Nat),
    x ∈ sweepAux ex fuel l i → x ∈ l := by
  intro fuel
  induction fuel with
  | zero => intro l i x h; exact h
  | succ fuel ih =>
      intro l i x h
      simp only [sweepAux] at h
      by_cases hi : i < l.length
      · rw [dif_pos hi] at h
        by_cases hex : ex (l.get ⟨i, hi⟩)
        · rw [if_pos hex] at h
          exact swapRemove_subset l i x (ih _ _ x h)
        · rw [if_neg hex] at h
          exact ih _ _ x h
      · rw [dif_neg hi] at h
        exact h

/-- One full sweep never grows the table. -/
theorem sweep_length_le (ex : Nat → Bool) (l : List Nat) :
    (sweep ex l).length ≤ l.length :=
  sweepAux_length_le ex (l.length + 1) l 0

/-- One full sweep keeps only elements of the original table. -/
theorem sweep_subset (ex : Nat → Bool) (l : List Nat) (x : Nat)
    (h : x ∈ sweep ex l) : x ∈ l :=
  sweepAux_subset ex (l.length + 1) l 0 x h

/-- Every table size recorded while `wait_all` polls is bounded by the
size of the table it started from. -/
theorem waitAll_trace_le (ex : Nat → Nat → Bool) (fl : Nat → Bool)
    (w : Option Nat) (r : Nat) :
    ∀ (fuel tick : Nat) (procs : List Nat) (t : Nat),
    t ∈ (waitAllModel ex fl w r fuel tick procs).2 → t ≤ procs.length := by
  intro fuel
  induction fuel with
  | zero => intro tick procs t h; simp [waitAllModel] at h
  | succ fuel ih =>
      intro tick procs t h
      simp only [waitAllModel] at h
      split at h
      · split at h
        · simp at h
          omega
        · simp only [List.mem_cons] at h
          rcases h with h | h
          · subst h
            exact sweep_length_le _ _
          · exact le_trans (ih _ _ t h) (sweep_length_le _ _)
      · simp at h

/-- A completed `wait_all` returns a sub-table of what it started
with. -/
theorem waitAll_some_sub (ex : Nat → Nat → Bool) (fl : Nat → Bool)
    (w : Option Nat) (r : Nat) :
    ∀ (fuel tick : Nat) (procs procs2 : List Nat),
    (waitAllModel ex fl w r fuel tick procs).1 = some procs2 →
    (∀ x ∈ procs2, x ∈ procs) ∧ procs2.length ≤ procs.length := by
  intro fuel
  induction fuel with
  | zero => intro tick procs procs2 h; simp [waitAllModel] at h
  | succ fuel ih =>
      intro tick procs procs2 h
      simp only [waitAllModel] at h
      split at h
      · split at h
        · simp at h
          subst h
          exact ⟨by simp, by simp⟩
        · obtain ⟨hsub, hlen⟩ := ih (tick + 1) _ procs2 h
          constructor
          · intro x hx
            exact sweep_subset _ _ x (hsub x hx)
          · exact le_trans hlen (sweep_length_le _ _)
      · simp at h
        subst h
        exact ⟨fun x hx => hx, le_refl _⟩

/-- With no duration bound (`wait = None`, as in admission control), a
completed `wait_all` leaves strictly fewer processes than
`max remaining 1`. -/
theorem waitAll_none_lt (ex : Nat → Nat → Bool) (fl : Nat → Bool)
    (r : Nat) :
    ∀ (fuel tick : Nat) (procs procs2 : List Nat),
    (waitAllModel ex fl none r fuel tick procs).1 = some procs2 →
    procs2.length < max r 1 := by
  intro fuel
  induction fuel with
  | zero => intro tick procs procs2 h; simp [waitAllModel] at h
  | succ fuel ih =>
      intro tick procs procs2 h
      simp only [waitAllModel] at h
      split at h
      · split at h
        · simp at h
          subst h
          simp
        · exact ih (tick + 1) _ procs2 h
      · rename_i hcond
        simp at h
        subst h
        simp [withinDuration] at hcond
        rcases le_or_lt r procs.length with hr | hr
        · rw [hcond hr]
          simp
        · omega

/-- Under `LimitSpawn(1)`, executing one `Spawn` keeps every observed
table size at most 1 and preserves the invariant: the admission wait
(if entered) only shrinks the table and completes only once it is
empty, so registering the new child brings it back to at most one. -/
theorem bedExecute_spawn_limit_one (exited : Nat → Nat → Bool)
    (flag : Nat → Bool) (fuel : Nat) (st : BedState) (pid : Nat)
    (ee : Option VariableAccessError) (ok : Bool)
    (hlim : st.spawnLimit = some 1) (hlen : st.processes.length ≤ 1) :
    (∀ t ∈ (bedExecute exited flag fuel st (BedCmd.spawnC pid ee ok)).2,
      t ≤ 1) ∧
    (∀ st2,
      (bedExecute exited flag fuel st (BedCmd.spawnC pid ee ok)).1 =
        BedRes.okB st2 →
      st2.spawnLimit = some 1 ∧ st2.processes.length ≤ 1) := by
  by_cases hat : 1 ≤ st.processes.length
  · cases hw : waitAllModel exited flag none 1 fuel 0 st.processes with
    | mk res tr =>
        have htr : ∀ t ∈ tr, t ≤ 1 := by
          intro t ht
          have := waitAll_trace_le exited flag none 1 fuel 0
            st.processes t (by rw [hw]; exact ht)
          omega
        cases res with
        | none =>
            constructor
            · intro t ht
              simp only [bedExecute, hlim, if_pos hat, hw] at ht
              exact htr t ht
            · intro st2 h
              simp only [bedExecute, hlim, if_pos hat, hw] at h
              simp at h
        | some procs =>
            have hlt : procs.length < 1 := by
              have := waitAll_none_lt exited flag 1 fuel 0 st.processes
                procs (by rw [hw])
              simpa using this
            cases ee with
            | some e =>
                constructor
                · intro t ht
                  simp only [bedExecute, hlim, if_pos hat, hw] at ht
                  exact htr t ht
                · intro st2 h
                  simp only [bedExecute, hlim, if_pos hat, hw] at h
                  simp at h
            | none =>
                cases ok with
                | true =>
                    constructor
                    · intro t ht
                      simp only [bedExecute, hlim, if_pos hat, hw] at ht
                      simp only [if_true] at ht
                      rcases List.mem_append.mp ht with h1 | h1
                      · exact htr t h1
                      · simp at h1
                        omega
                    · intro st2 h
                      simp only [bedExecute, hlim, if_pos hat, hw] at h
                      simp only [if_true] at h
                      simp only [BedRes.okB.injEq] at h
                      subst h
                      refine ⟨rfl, ?_⟩
                      show (procs ++ [pid]).length ≤ 1
                      rw [List.length_append]
                      simp only [List.length_singleton]
                      omega
                | false =>
                    constructor
                    · intro t ht
                      simp only [bedExecute, hlim, if_pos hat, hw] at ht
                      simp only [Bool.false_eq_true, if_false] at ht
                      exact htr t ht
                    · intro st2 h
                      simp only [bedExecute, hlim, if_pos hat, hw] at h
                      simp only [Bool.false_eq_true, if_false,
                        BedRes.okB.injEq] at h
                      subst h
                      exact ⟨rfl, by simpa using hlt.le⟩
  · have hz : st.processes.length = 0 := by omega
    cases ee with
    | some e =>
        constructor
        · intro t ht
          simp only [bedExecute, hlim, if_neg hat] at ht
          simp at ht
        · intro st2 h
          simp only [bedExecute, hlim, if_neg hat] at h
          simp at h
    | none =>
        cases ok with
        | true =>
            constructor
            · intro t ht
              simp only [bedExecute, hlim, if_neg hat, if_true] at ht
              simp at ht
              omega
            · intro st2 h
              simp only [bedExecute, hlim, if_neg hat, if_true,
                BedRes.okB.injEq] at h
              subst h
              refine ⟨rfl, ?_⟩
              show (st.processes ++ [pid]).length ≤ 1
              rw [List.length_append]
              simp only [List.length_singleton]
              omega
        | false =>
            constructor
            · intro t ht
              simp only [bedExecute, hlim, if_neg hat,
                Bool.false_eq_true, if_false] at ht
              simp at ht
            · intro st2 h
              simp only [bedExecute, hlim, if_neg hat,
                Bool.false_eq_true, if_false, BedRes.okB.injEq] at h
              subst h
              exact ⟨rfl, hlen⟩

/-- Running any sequence of `Spawn` commands from a state satisfying
the `LimitSpawn(1)` invariant keeps every observed table size at most
one. -/
theorem runBed_spawn_limit_one (exited : Nat → Nat → Bool)
    (flag : Nat → Bool) (fuel : Nat) :
    ∀ (cmds : List BedCmd),
    (∀ c ∈ cmds, ∃ p ee ok, c = BedCmd.spawnC p ee ok) →
    ∀ (st : BedState), st.spawnLimit = some 1 →
    st.processes.length ≤ 1 →
    (∀ t ∈ (runBed exited flag fuel st cmds).2, t ≤ 1) ∧
    (∀ st2, (runBed exited flag fuel st cmds).1 = BedRes.okB st2 →
      st2.spawnLimit = some 1 ∧ st2.processes.length ≤ 1) := by
  intro cmds
  induction cmds with
  | nil =>
      intro _ st hlim hlen
      constructor
      · intro t ht
        simp [runBed] at ht
      · intro st2 h
        simp only [runBed, BedRes.okB.injEq] at h
        subst h
        exact ⟨hlim, hlen⟩
  | cons c rest ih =>
      intro hsp st hlim hlen
      obtain ⟨p, ee, ok, rfl⟩ := hsp c (List.mem_cons_self c rest)
      have hrest : ∀ c2 ∈ rest, ∃ p ee ok, c2 = BedCmd.spawnC p ee ok :=
        fun c2 h2 => hsp c2 (List.mem_cons_of_mem _ h2)
      obtain ⟨hbtr, hbok⟩ := bedExecute_spawn_limit_one exited flag fuel
        st p ee ok hlim hlen
      cases hbe : bedExecute exited flag fuel st (BedCmd.spawnC p ee ok)
        with
      | mk res tr =>
          have hbtr2 : ∀ t ∈ tr, t ≤ 1 := by
            intro t ht
            exact hbtr t (by rw [hbe]; exact ht)
          cases res with
          | okB st3 =>
              obtain ⟨hlim3, hlen3⟩ := hbok st3 (by rw [hbe])
              obtain ⟨ihtr, ihok⟩ := ih hrest st3 hlim3 hlen3
              constructor
              · intro t ht
                simp only [runBed, hbe] at ht
                rcases List.mem_append.mp ht with h1 | h1
                · exact hbtr2 t h1
                · exact ihtr t h1
              · intro st2 h
                simp only [runBed, hbe] at h
                exact ihok st2 h
          | errB e st3 =>
              constructor
              · intro t ht
                simp only [runBed, hbe] at ht
                exact hbtr2 t ht
              · intro st2 h
                simp only [runBed, hbe] at h
                simp at h
          | blockedB =>
              constructor
              · intro t ht
                simp only [runBed, hbe] at ht
                exact hbtr2 t ht
              · intro st2 h
                simp only [runBed, hbe] at h
                simp at h

/-- C6: after `LimitSpawn(1)`, for any subsequent sequence of `Spawn`
commands, any process-exit oracle and any cancellation-flag history,
the number of registered running children never exceeds 1 at any
observation point of the run, and when the run completes normally the
final table also holds at most 1 child: before registering a new child
with the table full, the supervisor polls (re-checking cancellation
each tick and sweeping exited children) until the table is below the
limit, and only then registers it. -/
theorem limit_spawn_admission_bound :
    ∀ (spawns : List (Nat × Option VariableAccessError × Bool))
      (exited : Nat → Nat → Bool) (flag : Nat → Bool) (fuel : Nat),
    (∀ t ∈ (runBed exited flag fuel ⟨none, []⟩
        (BedCmd.limitSpawn 1 ::
          spawns.map (fun p => BedCmd.spawnC p.1 p.2.1 p.2.2))).2,
      t ≤ 1) ∧
    (∀ st2, (runBed exited flag fuel ⟨none, []⟩
        (BedCmd.limitSpawn 1 ::
          spawns.map (fun p => BedCmd.spawnC p.1 p.2.1 p.2.2))).1 =
      BedRes.okB st2 → st2.processes.length ≤ 1) := by
  intro spawns exited flag fuel
  have hfirst : bedExecute exited flag fuel ⟨none, []⟩
      (BedCmd.limitSpawn 1) =
      (BedRes.okB ⟨some 1, []⟩, []) := rfl
  have hsp : ∀ c ∈ spawns.map (fun p => BedCmd.spawnC p.1 p.2.1 p.2.2),
      ∃ p ee ok, c = BedCmd.spawnC p ee ok := by
    intro c hc
    obtain ⟨p, _, rfl⟩ := List.mem_map.mp hc
    exact ⟨p.1, p.2.1, p.2.2, rfl⟩
  obtain ⟨htr, hok⟩ := runBed_spawn_limit_one exited flag fuel
    (spawns.map (fun p => BedCmd.spawnC p.1 p.2.1 p.2.2)) hsp
    ⟨some 1, []⟩ rfl (by simp)
  constructor
  · intro t ht
    simp only [runBed, hfirst, List.nil_append] at ht
    exact htr t ht
  · intro st2 h
    simp only [runBed, hfirst] at h
    exact (hok st2 h).2

/-- Witness for C6: three spawns under `LimitSpawn(1)` with an oracle
under which every child exits at the first poll; the run records table
size 1 at a spawn and the theorem bounds it. -/
theorem limit_spawn_admission_bound_witness :
    (1 ∈ (runBed (fun _ _ => true) (fun _ => false) 5 ⟨none, []⟩
        (BedCmd.limitSpawn 1 ::
          ([(7, none, true), (8, none, true), (9, none, true)] :
            List (Nat × Option VariableAccessError × Bool)).map
            (fun p => BedCmd.spawnC p.1 p.2.1 p.2.2))).2) ∧
    (1 : Nat) ≤ 1 := by
  refine ⟨by decide, ?_⟩
  exact (limit_spawn_admission_bound
    [(7, none, true), (8, none, true), (9, none, true)]
    (fun _ _ => true) (fun _ => false) 5).1 1 (by decide)

/-- C9: a `Spawn` whose OS-level `ProcessInfo::run` fails returns
success to the interpreter (the run continues with the next
instruction) and does not add the failed process to the table of
running children: when admission control is not triggered the table is
left exactly unchanged, and in every case the returned table is a
sub-table of the previous one — in particular a fresh pid is never
registered. -/
theorem spawn_error_not_registered :
    (∀ (exited : Nat → Nat → Bool) (flag : Nat → Bool) (fuel : Nat)
      (st : BedState) (pid : Nat),
      (st.spawnLimit = none ∨
        ∃ l, st.spawnLimit = some l ∧ st.processes.length < l) →
      bedExecute exited flag fuel st (BedCmd.spawnC pid none false) =
        (BedRes.okB st, [])) ∧
    (∀ (exited : Nat → Nat → Bool) (flag : Nat → Bool) (fuel : Nat)
      (st : BedState) (pid : Nat) (st2 : BedState),
      (bedExecute exited flag fuel st (BedCmd.spawnC pid none false)).1 =
        BedRes.okB st2 →
      st2.spawnLimit = st.spawnLimit ∧
      (∀ q ∈ st2.processes, q ∈ st.processes) ∧
      (pid ∉ st.processes → pid ∉ st2.processes)) := by
  constructor
  · intro exited flag fuel st pid h
    obtain ⟨sl, pr⟩ := st
    rcases h with h | ⟨l, hl, hlt⟩
    · simp only at h
      subst h
      rfl
    · simp only at hl hlt
      subst hl
      have hnot : ¬ l ≤ pr.length := by omega
      simp only [bedExecute]
      rw [if_neg hnot]
      rfl
  · intro exited flag fuel st pid st2 h
    obtain ⟨sl, pr⟩ := st
    cases sl with
    | none =>
        simp only [bedExecute] at h
        simp only [Bool.false_eq_true, if_false, BedRes.okB.injEq] at h
        subst h
        exact ⟨rfl, fun q hq => hq, fun hp => hp⟩
    | some l =>
        by_cases hat : l ≤ pr.length
        · cases hw : waitAllModel exited flag none l fuel 0 pr with
          | mk res tr =>
              cases res with
              | none =>
                  simp only [bedExecute, if_pos hat, hw] at h
                  simp at h
              | some procs =>
                  simp only [bedExecute, if_pos hat, hw] at h
                  simp only [Bool.false_eq_true, if_false,
                    BedRes.okB.injEq] at h
                  subst h
                  obtain ⟨hsub, _⟩ := waitAll_some_sub exited flag none l
                    fuel 0 pr procs (by rw [hw])
                  exact ⟨rfl, hsub, fun hp hmem => hp (hsub pid hmem)⟩
        · simp only [bedExecute, if_neg hat] at h
          simp only [Bool.false_eq_true, if_false,
            BedRes.okB.injEq] at h
          subst h
          exact ⟨rfl, fun q hq => hq, fun hp => hp⟩

/-- Witness for C9: with no spawn limit, a failed spawn leaves the
supervisor state untouched. -/
theorem spawn_error_not_registered_witness :
    ((⟨none, [4]⟩ : BedState).spawnLimit = none ∨
      ∃ l, (⟨none, [4]⟩ : BedState).spawnLimit = some l ∧
        (⟨none, [4]⟩ : BedState).processes.length < l) ∧
    bedExecute (fun _ _ => false) (fun _ => false) 5 ⟨none, [4]⟩
        (BedCmd.spawnC 9 none false) =
      (BedRes.okB ⟨none, [4]⟩, []) := by
  refine ⟨Or.inl rfl, ?_⟩
  exact spawn_error_not_registered.1 (fun _ _ => false) (fun _ => false)
    5 ⟨none, [4]⟩ 9 (Or.inl rfl)
